import Mathlib

/-!
Verification of the Taipy configuration serializer, REST configuration
section and checker, markdown factory and GUI data accessor, against a
shallow embedding of the Python sources.

Python scalar values are embedded as the inductive type `PyValue`.
Number-to-string rendering models Python's `str` on `bool`, `int` and
`float`, `datetime.isoformat` and the serializer's own
`_timedelta_to_str`.
-/

namespace Taipy

/-- One decimal digit rendered as a character, as Python renders it. -/
def digitChar (d : Nat) : Char := Nat.digitChar d

/-- The numeric value of a decimal digit character. -/
def charDigit (c : Char) : Nat := c.toNat - 48

/-- Big-endian decimal digits of `n`, empty for `n = 0`; `fuel` bounds the
recursion depth and any `fuel ≥ n` gives the true digits. -/
def natCharsAux : Nat → Nat → List Char
  | 0, _ => []
  | fuel + 1, n => if n = 0 then [] else natCharsAux fuel (n / 10) ++ [digitChar (n % 10)]

/-- Big-endian decimal digits of `n`, empty for `n = 0`. -/
def natChars (n : Nat) : List Char := natCharsAux n n

/-- Decimal rendering of a natural number, modelling Python `str` on a
nonnegative `int`. -/
def natCharsFull (n : Nat) : List Char := if n = 0 then ['0'] else natChars n

/-- Fold a digit string back into the natural number it denotes. -/
def parseDigits (cs : List Char) : Nat := cs.foldl (fun a c => a * 10 + charDigit c) 0

theorem charDigit_digitChar {d : Nat} (h : d < 10) : charDigit (digitChar d) = d := by
  interval_cases d <;> rfl

theorem isDigit_digitChar {d : Nat} (h : d < 10) : (digitChar d).isDigit = true := by
  interval_cases d <;> rfl

theorem natCharsAux_eq (fuel n : Nat) (hn : n ≠ 0) :
    natCharsAux (fuel + 1) n = natCharsAux fuel (n / 10) ++ [digitChar (n % 10)] := by
  simp [natCharsAux, hn]

theorem natCharsAux_digits : ∀ (fuel n : Nat), ∀ c ∈ natCharsAux fuel n, c.isDigit = true := by
  intro fuel
  induction fuel with
  | zero => intro n c hc; simp [natCharsAux] at hc
  | succ fuel ih =>
    intro n c hc
    by_cases hn : n = 0
    · simp [natCharsAux, hn] at hc
    · rw [natCharsAux_eq fuel n hn] at hc
      rcases List.mem_append.mp hc with h | h
      · exact ih _ c h
      · rcases List.mem_singleton.mp h with rfl
        exact isDigit_digitChar (Nat.mod_lt _ (by norm_num))

theorem natChars_digits (n : Nat) : ∀ c ∈ natChars n, c.isDigit = true :=
  natCharsAux_digits n n

theorem parseDigits_append (xs ys : List Char) :
    parseDigits (xs ++ ys) = (xs ++ ys).foldl (fun a c => a * 10 + charDigit c) 0 := rfl

theorem foldl_digits_append (a : Nat) (xs ys : List Char) :
    (xs ++ ys).foldl (fun a c => a * 10 + charDigit c) a
      = ys.foldl (fun a c => a * 10 + charDigit c)
          (xs.foldl (fun a c => a * 10 + charDigit c) a) :=
  List.foldl_append _ _ _ _

theorem foldl_digits_natCharsAux :
    ∀ (fuel n : Nat), n ≤ fuel → ∀ a : Nat,
      (natCharsAux fuel n).foldl (fun a c => a * 10 + charDigit c) a
        = a * 10 ^ (natCharsAux fuel n).length + n := by
  intro fuel
  induction fuel with
  | zero =>
    intro n hn a
    interval_cases n
    simp [natCharsAux]
  | succ fuel ih =>
    intro n hn a
    by_cases h0 : n = 0
    · subst h0; simp [natCharsAux]
    · rw [natCharsAux_eq fuel n h0]
      have hdiv : n / 10 ≤ fuel := by
        have : n / 10 < n := Nat.div_lt_self (Nat.pos_of_ne_zero h0) (by norm_num)
        omega
      rw [foldl_digits_append, ih (n / 10) hdiv a]
      simp only [List.foldl_cons, List.foldl_nil, List.length_append, List.length_singleton]
      rw [charDigit_digitChar (Nat.mod_lt _ (by norm_num))]
      rw [pow_succ]
      have := Nat.div_add_mod n 10
      ring_nf
      omega

theorem parseDigits_natChars (n : Nat) : parseDigits (natChars n) = n := by
  have := foldl_digits_natCharsAux n n (Nat.le_refl n) 0
  simpa [parseDigits, natChars] using this

theorem parseDigits_natCharsFull (n : Nat) : parseDigits (natCharsFull n) = n := by
  by_cases h : n = 0
  · subst h; rfl
  · simp [natCharsFull, h, parseDigits_natChars]

theorem natCharsFull_ne_nil (n : Nat) : natCharsFull n ≠ [] := by
  by_cases h : n = 0
  · subst h; simp [natCharsFull]
  · simp only [natCharsFull, if_neg h]
    have hpos : 0 < n := Nat.pos_of_ne_zero h
    cases hn : n with
    | zero => omega
    | succ m =>
      subst hn
      rw [natChars, natCharsAux_eq m (m + 1) (Nat.succ_ne_zero m)]
      simp

theorem natCharsFull_digits (n : Nat) : ∀ c ∈ natCharsFull n, c.isDigit = true := by
  by_cases h : n = 0
  · subst h; intro c hc; rcases List.mem_singleton.mp hc with rfl; rfl
  · simpa [natCharsFull, h] using natChars_digits n

theorem parseDigits_replicate_zero_append (k : Nat) (ds : List Char) :
    parseDigits (List.replicate k '0' ++ ds) = parseDigits ds := by
  induction k with
  | zero => simp
  | succ k ih =>
    rw [List.replicate_succ]
    simpa [parseDigits, charDigit] using ih

/-- Decimal digits of `v` left-padded with zeros to width `n`. -/
def padChars (n v : Nat) : List Char :=
  List.replicate (n - (natCharsFull v).length) '0' ++ natCharsFull v

theorem natCharsAux_length_le :
    ∀ (fuel v k : Nat), v < 10 ^ k → (natCharsAux fuel v).length ≤ k := by
  intro fuel
  induction fuel with
  | zero => intro v k _; simp [natCharsAux]
  | succ fuel ih =>
    intro v k hv
    by_cases h0 : v = 0
    · simp [natCharsAux, h0]
    · rw [natCharsAux_eq fuel v h0]
      have hk : 1 ≤ k := by
        by_contra hk
        push_neg at hk
        interval_cases k
        omega
      have hdiv : v / 10 < 10 ^ (k - 1) := by
        rw [Nat.div_lt_iff_lt_mul (by norm_num)]
        calc v < 10 ^ k := hv
        _ = 10 ^ (k - 1) * 10 := by
              rw [← pow_succ]
              congr 1
              omega
      have := ih (v / 10) (k - 1) hdiv
      simp only [List.length_append, List.length_singleton]
      omega

theorem natCharsFull_length_le {v n : Nat} (hv : v < 10 ^ n) (hn : 0 < n) :
    (natCharsFull v).length ≤ n := by
  by_cases h : v = 0
  · simp [natCharsFull, h]; omega
  · simp only [natCharsFull, if_neg h]
    exact natCharsAux_length_le v v n hv

theorem padChars_length {n v : Nat} (hv : v < 10 ^ n) (hn : 0 < n) :
    (padChars n v).length = n := by
  have := natCharsFull_length_le hv hn
  simp [padChars]
  omega

theorem padChars_digits (n v : Nat) : ∀ c ∈ padChars n v, c.isDigit = true := by
  intro c hc
  rcases List.mem_append.mp hc with h | h
  · rcases List.eq_of_mem_replicate h with rfl; rfl
  · exact natCharsFull_digits v c h

theorem parseDigits_padChars (n v : Nat) : parseDigits (padChars n v) = v := by
  rw [padChars, parseDigits_replicate_zero_append, parseDigits_natCharsFull]

/-- A Python `float` value, as the exact decimal `man / 10 ^ exp` printed by
`repr`; canonical values satisfy `PyFloat.wf`. -/
structure PyFloat where
  man : Int
  exp : Nat
  deriving DecidableEq, Repr

/-- Canonical decimal form: integral values carry `exp = 0`, fractional ones
have no trailing zero digit. -/
def PyFloat.wf (f : PyFloat) : Prop := f.exp = 0 ∨ ¬ ((10 : Int) ∣ f.man)

instance (f : PyFloat) : Decidable f.wf := by unfold PyFloat.wf; infer_instance

/-- A Python `datetime.datetime` value. -/
structure PyDatetime where
  year : Nat
  month : Nat
  day : Nat
  hour : Nat
  minute : Nat
  second : Nat
  microsecond : Nat
  deriving DecidableEq, Repr

/-- Field ranges of a real `datetime.datetime`. -/
def PyDatetime.wf (d : PyDatetime) : Prop :=
  1 ≤ d.year ∧ d.year ≤ 9999 ∧ 1 ≤ d.month ∧ d.month ≤ 12 ∧ 1 ≤ d.day ∧ d.day ≤ 31 ∧
    d.hour ≤ 23 ∧ d.minute ≤ 59 ∧ d.second ≤ 59 ∧ d.microsecond ≤ 999999

instance (d : PyDatetime) : Decidable d.wf := by unfold PyDatetime.wf; infer_instance

/-- A Python `datetime.timedelta` value, as its exact total duration in
microseconds. -/
structure PyTimedelta where
  us : Int
  deriving DecidableEq, Repr

/-- A Python value of one of the scalar types handled by the configuration
serializer, plus `None`. -/
inductive PyValue where
  | vNone
  | vBool (b : Bool)
  | vInt (n : Int)
  | vFloat (f : PyFloat)
  | vStr (s : String)
  | vDatetime (d : PyDatetime)
  | vTimedelta (t : PyTimedelta)
  deriving DecidableEq, Repr

/-- Python `str` on a `bool`. -/
def strOfBool (b : Bool) : String := if b then "True" else "False"

/-- Python `str` on an `int`. -/
def intChars (n : Int) : List Char :=
  if n < 0 then '-' :: natCharsFull n.natAbs else natCharsFull n.natAbs

def strOfInt (n : Int) : String := String.mk (intChars n)

/-- Python `str` on a `float`: positional decimal rendering of
`man / 10 ^ exp` with at least one fractional digit (scientific notation
for extreme magnitudes is outside the embedded fragment). -/
def floatChars (f : PyFloat) : List Char :=
  let ds := natCharsFull f.man.natAbs
  let sign : List Char := if f.man < 0 then ['-'] else []
  if f.exp = 0 then sign ++ ds ++ ['.', '0']
  else
    let padded := List.replicate (f.exp + 1 - ds.length) '0' ++ ds
    sign ++ padded.take (padded.length - f.exp) ++ '.' :: padded.drop (padded.length - f.exp)

def strOfFloat (f : PyFloat) : String := String.mk (floatChars f)

/-- Python `datetime.isoformat()`: `YYYY-MM-DDTHH:MM:SS` with `.ffffff` appended
exactly when the microsecond field is nonzero. -/
def isoChars (d : PyDatetime) : List Char :=
  padChars 4 d.year ++ '-' :: padChars 2 d.month ++ '-' :: padChars 2 d.day ++
    'T' :: padChars 2 d.hour ++ ':' :: padChars 2 d.minute ++ ':' :: padChars 2 d.second ++
      (if d.microsecond = 0 then [] else '.' :: padChars 6 d.microsecond)

def isoformat (d : PyDatetime) : String := String.mk (isoChars d)

/-- Python `timedelta.total_seconds()`, an exact rational in this embedding. -/
def PyTimedelta.total_seconds (t : PyTimedelta) : ℚ := (t.us : ℚ) / 1000000

/-- Python `//` on floats: floor division. -/
def pyFloorDiv (a b : ℚ) : ℚ := (⌊a / b⌋ : ℚ)

/-- Python `%` on floats: remainder with the divisor's sign. -/
def pyMod (a b : ℚ) : ℚ := a - b * (⌊a / b⌋ : ℚ)

/-- Python `int()` on a float: truncation toward zero. -/
def pyIntTrunc (q : ℚ) : Int := q.num.tdiv (q.den : Int)

/-- The method `_BaseSerializer._timedelta_to_str`: renders a timedelta as
`"<d>d<h>h<m>m<s>s"` from its `total_seconds()`. -/
def timedelta_to_str (t : PyTimedelta) : String :=
  let total_seconds := t.total_seconds
  strOfInt (pyIntTrunc (pyFloorDiv total_seconds 86400)) ++ "d" ++
    strOfInt (pyIntTrunc (pyFloorDiv (pyMod total_seconds 86400) 3600)) ++ "h" ++
      strOfInt (pyIntTrunc (pyFloorDiv (pyMod total_seconds 3600) 60)) ++ "m" ++
        strOfInt (pyIntTrunc (pyMod total_seconds 60)) ++ "s"

/-- The method `_BaseSerializer._stringify` on the embedded scalar fragment: `bool`,
`int`, `float`, `datetime` and `timedelta` become `"value:type"` tagged
strings (the `bool` branch precedes the `int` branch as in the source),
plain strings and `None` are returned unchanged. -/
def stringify : PyValue → PyValue
  | .vNone => .vNone
  | .vBool b => .vStr (strOfBool b ++ ":bool")
  | .vInt n => .vStr (strOfInt n ++ ":int")
  | .vFloat f => .vStr (strOfFloat f ++ ":float")
  | .vDatetime d => .vStr (isoformat d ++ ":datetime")
  | .vTimedelta t => .vStr (timedelta_to_str t ++ ":timedelta")
  | .vStr s => .vStr s

/-- The list `_BaseSerializer._SERIALIZABLE_TYPES` in its default state (no extra
types registered). -/
def SERIALIZABLE_TYPES : List String :=
  ["bool", "str", "int", "float", "datetime", "timedelta", "function", "class", "enum",
    "SECTION"]

/-- Modelled from the spec: `_TemplateHandler._PATTERN`, the environment
variable template syntax `ENV[name]` with an optional `:bool`, `:str`,
`:int` or `:float` suffix, the one string shape `_pythonify` returns
unchanged before trying the `"value:type"` tagged form. -/
def templateMatchChars : List Char → Bool
  | 'E' :: 'N' :: 'V' :: '[' :: rest =>
    let p := rest.span (fun c => c.isAlphanum || c = '_')
    (match p.1 with
      | [] => false
      | c :: _ => c.isAlpha || c = '_') &&
    (match p.2 with
      | [']'] => true
      | ']' :: ':' :: tw =>
        tw = "bool".data || tw = "str".data || tw = "int".data || tw = "float".data
      | _ => false)
  | _ => false

def templateMatch (s : String) : Bool := templateMatchChars s.data

/-- Whether a candidate for the optional type group of the serializer's
`TYPE_PATTERN` regex matches: the empty suffix or one of the serializable
type names. -/
def validTypeSuffix (t : List Char) : Bool :=
  t.isEmpty || SERIALIZABLE_TYPES.contains (String.mk t)

/-- Greedy match of `TYPE_PATTERN = "^(.+):(\btype1\b|...)?$"`: scanning
splits from the right, the first (rightmost) colon with a nonempty part
before it and a valid type suffix after it wins, as the backtrackingregex
engine resolves the greedy `(.+)` group. -/
def lastValidSplitAux (cs : List Char) : Nat → Option (List Char × List Char)
  | 0 => none
  | i + 1 =>
    if cs.get? i = some ':' ∧ 1 ≤ i ∧ validTypeSuffix (cs.drop (i + 1)) then
      some (cs.take i, cs.drop (i + 1))
    else lastValidSplitAux cs i

def lastValidSplit (cs : List Char) : Option (List Char × List Char) :=
  lastValidSplitAux cs cs.length

/-- Errors surfaced by deserialization: `LoadingError` from the serializer's
unsupported-type branch, `ValueError`-style failures from the value
converters, and conversions outside the embedded fragment. -/
inductive PyError where
  | loadingError (msg : String)
  | valueError (msg : String)
  | unsupported (msg : String)
  deriving DecidableEq, Repr

/-- Modelled from the spec: `_TemplateHandler._to_bool`, converting the
serialized form of a bool back. -/
def to_bool (p : List Char) : Except PyError PyValue :=
  if p = "True".data then .ok (.vBool true)
  else if p = "False".data then .ok (.vBool false)
  else .error (.valueError "invalid bool")

def parseNatChars (cs : List Char) : Option Nat :=
  if cs ≠ [] ∧ cs.all Char.isDigit then some (parseDigits cs) else none

def parseIntChars : List Char → Option Int
  | '-' :: rest => (parseNatChars rest).map (fun n => -(n : Int))
  | cs => (parseNatChars cs).map (fun n => (n : Int))

/-- Modelled from the spec: `_TemplateHandler._to_int`, converting the
serialized form of an int back. -/
def to_int (p : List Char) : Except PyError PyValue :=
  match parseIntChars p with
  | some n => .ok (.vInt n)
  | none => .error (.valueError "invalid int")

/-- Strip one leading minus sign, reporting whether one was present. -/
def stripMinus (cs : List Char) : Bool × List Char :=
  match cs with
  | '-' :: rest => (true, rest)
  | _ => (false, cs)

/-- Split a character list at its unique dot, rejecting inputs with no dot
or more than one. -/
def splitDot : List Char → Option (List Char × List Char)
  | [] => none
  | c :: rest =>
    if c = '.' then
      if rest.contains '.' then none else some ([], rest)
    else (splitDot rest).map (fun q => (c :: q.1, q.2))

def parseFloatChars (cs : List Char) : Option PyFloat :=
  let sp := stripMinus cs
  match splitDot sp.2 with
  | some (ip, fp) =>
    if ip ≠ [] ∧ ip.all Char.isDigit ∧ fp ≠ [] ∧ fp.all Char.isDigit then
      let me : Nat × Nat :=
        if fp = ['0'] then (parseDigits ip, 0) else (parseDigits (ip ++ fp), fp.length)
      some ⟨if sp.1 then -(me.1 : Int) else (me.1 : Int), me.2⟩
    else none
  | none => none

/-- Modelled from the spec: `_TemplateHandler._to_float`, converting the
serialized form of a float back. -/
def to_float (p : List Char) : Except PyError PyValue :=
  match parseFloatChars p with
  | some f => .ok (.vFloat f)
  | none => .error (.valueError "invalid float")

/-- Read exactly `n` decimal digits from the head of the input. -/
def parseFixed (n : Nat) (cs : List Char) : Option (Nat × List Char) :=
  let pre := cs.take n
  if pre.length = n ∧ pre.all Char.isDigit then some (parseDigits pre, cs.drop n) else none

def expectChar (c : Char) : List Char → Option (List Char)
  | x :: rest => if x = c then some rest else none
  | [] => none

def parseDatetimeChars (cs : List Char) : Option PyDatetime := do
  let (y, r1) ← parseFixed 4 cs
  let r2 ← expectChar '-' r1
  let (mo, r3) ← parseFixed 2 r2
  let r4 ← expectChar '-' r3
  let (dd, r5) ← parseFixed 2 r4
  let r6 ← expectChar 'T' r5
  let (h, r7) ← parseFixed 2 r6
  let r8 ← expectChar ':' r7
  let (mi, r9) ← parseFixed 2 r8
  let r10 ← expectChar ':' r9
  let (s, r11) ← parseFixed 2 r10
  match r11 with
  | [] => pure ⟨y, mo, dd, h, mi, s, 0⟩
  | '.' :: r12 => do
    let (us, r13) ← parseFixed 6 r12
    if r13 = [] then pure ⟨y, mo, dd, h, mi, s, us⟩ else none
  | _ => none

/-- Modelled from the spec: `_TemplateHandler._to_datetime`, converting the
serialized isoformat string back. -/
def to_datetime (p : List Char) : Except PyError PyValue :=
  match parseDatetimeChars p with
  | some d => .ok (.vDatetime d)
  | none => .error (.valueError "invalid datetime")

/-- Read a run of decimal digits terminated by the separator `sep`. -/
def parseNatUpTo (sep : Char) (cs : List Char) : Option (Nat × List Char) :=
  let p := cs.span Char.isDigit
  match p.2 with
  | c :: rest => if c = sep ∧ p.1 ≠ [] then some (parseDigits p.1, rest) else none
  | [] => none

def parseTimedeltaChars (cs : List Char) : Option PyTimedelta := do
  let sp := stripMinus cs
  let (d, r1) ← parseNatUpTo 'd' sp.2
  let (h, r2) ← parseNatUpTo 'h' r1
  let (m, r3) ← parseNatUpTo 'm' r2
  let (s, r4) ← parseNatUpTo 's' r3
  if r4 = [] then
    let days : Int := if sp.1 then -(d : Int) else (d : Int)
    pure ⟨(days * 86400 + (h : Int) * 3600 + (m : Int) * 60 + (s : Int)) * 1000000⟩
  else none

/-- Modelled from the spec: `_TemplateHandler._to_timedelta`, converting the
serialized `"<d>d<h>h<m>m<s>s"` string back. -/
def to_timedelta (p : List Char) : Except PyError PyValue :=
  match parseTimedeltaChars p with
  | some t => .ok (.vTimedelta t)
  | none => .error (.valueError "invalid timedelta")

/-- The dynamic-type dispatch of `_pythonify` on a matched
`"value:type"` string: `actual_val` is `p`, the matched optional type group
is `sfx` (`none` models regex group 2 being `None`). The final branch is the
source's `else` raising `LoadingError`; the `function`, `class` and `enum`
converters import live Python objects and are outside the embedded
fragment. -/
def pythonifyDispatch (origin : String) (p : List Char) (sfx : Option (List Char)) :
    Except PyError PyValue :=
  if sfx = some "SECTION".data then .ok (.vStr (String.mk p))
  else if sfx = some "bool".data then to_bool p
  else if sfx = some "int".data then to_int p
  else if sfx = some "float".data then to_float p
  else if sfx = some "datetime".data then to_datetime p
  else if sfx = some "timedelta".data then to_timedelta p
  else if sfx = some "function".data then .error (.unsupported "function conversion")
  else if sfx = some "class".data then .error (.unsupported "class conversion")
  else if sfx = some "enum".data then .error (.unsupported "enum conversion")
  else if sfx = some "str".data then .ok (.vStr (String.mk p))
  else
    .error (.loadingError
      ("Error loading toml configuration at " ++ origin ++ ". None type is not supported."))

/-- The method `_BaseSerializer._pythonify` on the embedded scalar fragment, with the
default (empty) registry of extra types: a string matching the template
pattern is returned unchanged; otherwise a string matching `TYPE_PATTERN`
is dispatched on its type tag; any other value is returned unchanged. -/
def pythonify : PyValue → Except PyError PyValue
  | .vStr s =>
    if templateMatch s then .ok (.vStr s)
    else
      match lastValidSplit s.data with
      | some (p, t) => pythonifyDispatch s p (if t = [] then none else some t)
      | none => .ok (.vStr s)
  | v => .ok v

instance {α β : Type} [DecidableEq α] [DecidableEq β] : DecidableEq (Except α β) := fun x y =>
  match x, y with
  | .ok a, .ok b => decidable_of_iff (a = b) (by simp)
  | .error a, .error b => decidable_of_iff (a = b) (by simp)
  | .ok _, .error _ => isFalse (by simp)
  | .error _, .ok _ => isFalse (by simp)

/-- Python `isinstance(v, int)`: `bool` is a subclass of `int`. -/
def pyIsInt : PyValue → Bool
  | .vInt _ => true
  | .vBool _ => true
  | _ => false

/-- Python `isinstance(v, str)`. -/
def pyIsStr : PyValue → Bool
  | .vStr _ => true
  | _ => false

/-- The integer a `PyValue` compares as in `1 <= port <= 65535`; only
meaningful when `pyIsInt` holds (`True` compares as `1`, `False` as `0`). -/
def pyIntVal : PyValue → Int
  | .vInt n => n
  | .vBool b => if b then 1 else 0
  | _ => 0

/-- Python truthiness of an embedded value, as used by `if use_https:` and
`if not ssl_cert:`. -/
def pyTruthy : PyValue → Bool
  | .vNone => false
  | .vBool b => b
  | .vInt n => n ≠ 0
  | .vFloat f => f.man ≠ 0
  | .vStr s => s ≠ ""
  | .vDatetime _ => true
  | .vTimedelta t => t.us ≠ 0

/-- The section `RestConfig`: the five explicit fields (each possibly `None`, embedded
as `vNone`) plus the extra properties dict. Field values are the values the
property getters return (template placeholders already resolved:
`_TemplateHandler._replace_templates` is not part of the excerpt and the
spec describes no substitution, so values are used as configured). -/
structure RestConfig where
  port : PyValue
  host : PyValue
  use_https : PyValue
  ssl_cert : PyValue
  ssl_key : PyValue
  properties : List (String × PyValue)
  deriving DecidableEq, Repr

def RestConfig.PORT_KEY : String := "port"
def RestConfig.HOST_KEY : String := "host"
def RestConfig.USE_HTTPS_KEY : String := "use_https"
def RestConfig.SSL_CERT_KEY : String := "ssl_cert"
def RestConfig.SSL_KEY_KEY : String := "ssl_key"

/-- One collected configuration issue, as `_ConfigChecker._error` records
it: the offending field, its value and a message. -/
structure Issue where
  field : String
  value : PyValue
  message : String
  deriving DecidableEq, Repr

/-- The check `_RestConfigChecker._check_port`. -/
def check_port (c : RestConfig) : List Issue :=
  if ¬ (pyIsInt c.port = true ∧ 1 ≤ pyIntVal c.port ∧ pyIntVal c.port ≤ 65535) then
    [⟨"port", c.port, "The port of the RestConfig must be an integer between 1 and 65535."⟩]
  else []

/-- The check `_RestConfigChecker._check_host`. -/
def check_host (c : RestConfig) : List Issue :=
  if ¬ (pyIsStr c.host = true ∧ pyTruthy c.host = true) then
    [⟨"host", c.host, "The host of the RestConfig must be a non-empty string."⟩]
  else []

/-- The check `_RestConfigChecker._check_https_settings`. -/
def check_https_settings (c : RestConfig) : List Issue :=
  if pyTruthy c.use_https then
    (if ¬ pyTruthy c.ssl_cert then
      [⟨"ssl_cert", c.ssl_cert, "When HTTPS is enabled in the RestConfig ssl_cert must be set."⟩]
    else if ¬ pyIsStr c.ssl_cert then
      [⟨"ssl_cert", c.ssl_cert, "The ssl_cert of the RestConfig must be valid string."⟩]
    else []) ++
    (if ¬ pyTruthy c.ssl_key then
      [⟨"ssl_key", c.ssl_key, "When HTTPS is enabled in the RestConfig ssl_key must be set."⟩]
    else if ¬ pyIsStr c.ssl_key then
      [⟨"ssl_key", c.ssl_key, "The ssl_key of the RestConfig must be valid string."⟩]
    else [])
  else []

/-- The method `_RestConfigChecker._check`: when the configuration holds a REST unique
section, run the three checks in order; otherwise collect nothing. The
configuration is abstracted to its optional REST unique section. -/
def restCheck : Option RestConfig → List Issue
  | none => []
  | some c => check_port c ++ check_host c ++ check_https_settings c

/-- Whether the collector holds an error for the given field. -/
def hasError (f : String) (issues : List Issue) : Bool :=
  issues.any (fun i => i.field = f)

/-- Association-list lookup, modelling `dict.get`/`dict.pop`'s returned
value. -/
def dictGet (k : String) (d : List (String × PyValue)) : Option PyValue :=
  (d.find? (fun kv => kv.1 = k)).map (fun kv => kv.2)

/-- Remove a key, modelling the removal `dict.pop` performs. -/
def dictErase (k : String) (d : List (String × PyValue)) : List (String × PyValue) :=
  d.filter (fun kv => kv.1 ≠ k)

/-- Python `dict.update`: overwrite existing keys in place, append fresh ones. -/
def dictUpdate (d kvs : List (String × PyValue)) : List (String × PyValue) :=
  kvs.foldl
    (fun d kv =>
      if d.any (fun p => p.1 = kv.1) then
        d.map (fun p => if p.1 = kv.1 then kv else p)
      else d ++ [kv])
    d

/-- The method `RestConfig._to_dict`: the five fields whose value is not `None`, in
declaration order, updated with the extra properties. -/
def RestConfig.to_dict (c : RestConfig) : List (String × PyValue) :=
  dictUpdate
    (([(RestConfig.PORT_KEY, c.port), (RestConfig.HOST_KEY, c.host),
        (RestConfig.USE_HTTPS_KEY, c.use_https), (RestConfig.SSL_CERT_KEY, c.ssl_cert),
        (RestConfig.SSL_KEY_KEY, c.ssl_key)]).filter (fun kv => kv.2 ≠ .vNone))
    c.properties

/-- The method `RestConfig._from_dict`: pop the five reserved keys (`None` when
absent), the remainder becomes the extra properties. -/
def RestConfig.from_dict (d0 : List (String × PyValue)) : RestConfig :=
  let port := (dictGet RestConfig.PORT_KEY d0).getD .vNone
  let d1 := dictErase RestConfig.PORT_KEY d0
  let host := (dictGet RestConfig.HOST_KEY d1).getD .vNone
  let d2 := dictErase RestConfig.HOST_KEY d1
  let use_https := (dictGet RestConfig.USE_HTTPS_KEY d2).getD .vNone
  let d3 := dictErase RestConfig.USE_HTTPS_KEY d2
  let ssl_cert := (dictGet RestConfig.SSL_CERT_KEY d3).getD .vNone
  let d4 := dictErase RestConfig.SSL_CERT_KEY d3
  let ssl_key := (dictGet RestConfig.SSL_KEY_KEY d4).getD .vNone
  let d5 := dictErase RestConfig.SSL_KEY_KEY d4
  ⟨port, host, use_https, ssl_cert, ssl_key, d5⟩

/-- Modelled from the spec: `_Factory._PROPERTY_RE.findall` pulls
`name=value` pairs out of the element's property string; the unknown-element
branch of `create_element` never reads the result. -/
def parseProperties (s : String) : List (String × String) :=
  (s.splitOn "|").filterMap (fun part =>
    match part.splitOn "=" with
    | [k, v] => some (k, v)
    | _ => none)

/-- Modelled from the spec: `_Factory.call_builder` looks the element type
up in the registered builders and runs the builder on the parsed
properties, `None` (here `none`) when no builder is registered for the
type. -/
def call_builder (builders : List (String × (List (String × String) → String)))
    (element_type : String) (properties : List (String × String)) : Option String :=
  (builders.find? (fun b => b.1 = element_type)).map (fun b => b.2 properties)

/-- The method `_MarkdownFactory.create_element`, over an explicit builder registry in
place of the `_Factory` class state. -/
def create_element (builders : List (String × (List (String × String) → String)))
    (element_type : String) (all_properties : String) : String :=
  let properties := parseProperties all_properties
  match call_builder builders element_type properties with
  | none => "<|UNKNOWN ELEMENT TYPE '" ++ element_type ++ "'|>"
  | some builder_md => builder_md

/-- The value part a successful `_PandasDataAccessor.get_data` call returns
for a slice request. -/
structure GetDataValue (α : Type) where
  rowcount : Nat
  data : List α
  deriving Repr

/-- Modelled from the spec: `_PandasDataAccessor.get_data` on a
`{"start": s, "end": e}` payload — a thin slice over the dataframe, rows
`s` through `e` inclusive (`e = -1` meaning through the last row), with
`rowcount` the full length of the dataframe. The dataframe is embedded as
its list of rows. -/
def get_data {α : Type} (df : List α) (start endv : Int) : GetDataValue α :=
  let e : Int := if endv = -1 then (df.length : Int) - 1 else endv
  { rowcount := df.length, data := (df.drop start.toNat).take (e - start + 1).toNat }

theorem tdiv_eq_ediv_nn (a b : Int) (h : 0 ≤ a) (hb : 0 ≤ b) : Int.tdiv a b = a / b := by
  match a, h with
  | Int.ofNat m, _ =>
    match b, hb with
    | Int.ofNat n, _ => rfl

theorem pyIntTrunc_intCast (k : Int) : pyIntTrunc ((k : ℚ)) = k := by
  simp [pyIntTrunc, Rat.num_intCast, Rat.den_intCast, Int.tdiv_one]

theorem pyIntTrunc_nonneg (q : ℚ) (h : 0 ≤ q) : pyIntTrunc q = ⌊q⌋ := by
  rw [Rat.floor_def]
  exact tdiv_eq_ediv_nn _ _ (Rat.num_nonneg.mpr h) (by positivity)

theorem floor_intCast_div (a b : Int) (hb : 0 < b) : ⌊(a : ℚ) / (b : ℚ)⌋ = a / b := by
  have h1 := Rat.floor_intCast_div_natCast a b.toNat
  have hbn : ((b.toNat : ℕ) : ℚ) = (b : ℚ) := by
    rw [← Int.cast_natCast, Int.toNat_of_nonneg hb.le]
  have hbz : ((b.toNat : ℕ) : ℤ) = b := Int.toNat_of_nonneg hb.le
  rw [hbn, hbz] at h1
  exact h1

theorem pyFloorDiv_us (us k : Int) (hk : 0 < k) :
    pyFloorDiv ((us : ℚ) / 1000000) (k : ℚ) = ((us / (k * 1000000) : ℤ) : ℚ) := by
  unfold pyFloorDiv
  rw [show ((us : ℚ) / 1000000) / (k : ℚ) = (us : ℚ) / ((k * 1000000 : ℤ) : ℚ) by
    push_cast; ring]
  rw [floor_intCast_div us (k * 1000000) (by positivity)]

theorem pyMod_us (us k : Int) (hk : 0 < k) :
    pyMod ((us : ℚ) / 1000000) (k : ℚ) = ((us % (k * 1000000) : ℤ) : ℚ) / 1000000 := by
  unfold pyMod
  rw [show ((us : ℚ) / 1000000) / (k : ℚ) = (us : ℚ) / ((k * 1000000 : ℤ) : ℚ) by
    push_cast; ring]
  rw [floor_intCast_div us (k * 1000000) (by positivity)]
  rw [Int.emod_def us (k * 1000000)]
  push_cast
  ring

/-- The `"<d>d<h>h<m>m<s>s"` rendering computed by `_timedelta_to_str`
through float arithmetic equals the integer euclidean decomposition of the
timedelta's total microseconds. -/
theorem timedelta_to_str_eq (t : PyTimedelta) :
    timedelta_to_str t =
      strOfInt (t.us / 86400000000) ++ "d" ++
        strOfInt (t.us % 86400000000 / 3600000000) ++ "h" ++
          strOfInt (t.us % 3600000000 / 60000000) ++ "m" ++
            strOfInt (t.us % 60000000 / 1000000) ++ "s" := by
  have hd : pyIntTrunc (pyFloorDiv ((t.us : ℚ) / 1000000) 86400) = t.us / 86400000000 := by
    rw [show (86400 : ℚ) = ((86400 : ℤ) : ℚ) by norm_num]
    rw [pyFloorDiv_us t.us 86400 (by norm_num), pyIntTrunc_intCast]
    norm_num
  have hh : pyIntTrunc (pyFloorDiv (pyMod ((t.us : ℚ) / 1000000) 86400) 3600)
      = t.us % 86400000000 / 3600000000 := by
    rw [show (86400 : ℚ) = ((86400 : ℤ) : ℚ) by norm_num]
    rw [pyMod_us t.us 86400 (by norm_num)]
    rw [show (3600 : ℚ) = ((3600 : ℤ) : ℚ) by norm_num]
    rw [pyFloorDiv_us _ 3600 (by norm_num), pyIntTrunc_intCast]
    norm_num
  have hm : pyIntTrunc (pyFloorDiv (pyMod ((t.us : ℚ) / 1000000) 3600) 60)
      = t.us % 3600000000 / 60000000 := by
    rw [show (3600 : ℚ) = ((3600 : ℤ) : ℚ) by norm_num]
    rw [pyMod_us t.us 3600 (by norm_num)]
    rw [show (60 : ℚ) = ((60 : ℤ) : ℚ) by norm_num]
    rw [pyFloorDiv_us _ 60 (by norm_num), pyIntTrunc_intCast]
    norm_num
  have hs : pyIntTrunc (pyMod ((t.us : ℚ) / 1000000) 60) = t.us % 60000000 / 1000000 := by
    rw [show (60 : ℚ) = ((60 : ℤ) : ℚ) by norm_num]
    rw [pyMod_us t.us 60 (by norm_num)]
    have hr : (0 : ℤ) ≤ t.us % 60000000 := Int.emod_nonneg _ (by norm_num)
    rw [pyIntTrunc_nonneg _ (by positivity)]
    rw [show (1000000 : ℚ) = (((1000000 : ℤ)) : ℚ) by norm_num]
    rw [floor_intCast_div _ 1000000 (by norm_num)]
    norm_num
  simp only [timedelta_to_str, PyTimedelta.total_seconds]
  rw [hd, hh, hm, hs]

theorem takeWhile_append_cons {p : Char → Bool} {ds : List Char}
    (hds : ∀ x ∈ ds, p x = true) {c : Char} (hc : p c = false) (rest : List Char) :
    (ds ++ c :: rest).takeWhile p = ds := by
  induction ds with
  | nil => simp [List.takeWhile_cons, hc]
  | cons d ds ih =>
    have hd : p d = true := hds d (by simp)
    simp only [List.cons_append, List.takeWhile_cons, hd]
    rw [ih (fun x hx => hds x (by simp [hx]))]
    simp

theorem dropWhile_append_cons {p : Char → Bool} {ds : List Char}
    (hds : ∀ x ∈ ds, p x = true) {c : Char} (hc : p c = false) (rest : List Char) :
    (ds ++ c :: rest).dropWhile p = c :: rest := by
  induction ds with
  | nil => simp [List.dropWhile_cons, hc]
  | cons d ds ih =>
    have hd : p d = true := hds d (by simp)
    simp only [List.cons_append, List.dropWhile_cons, hd]
    exact ih (fun x hx => hds x (by simp [hx]))

theorem span_append_cons {p : Char → Bool} {ds : List Char}
    (hds : ∀ x ∈ ds, p x = true) {c : Char} (hc : p c = false) (rest : List Char) :
    (ds ++ c :: rest).span p = (ds, c :: rest) := by
  rw [List.span_eq_take_drop, takeWhile_append_cons hds hc, dropWhile_append_cons hds hc]

theorem parseNatUpTo_append {sep : Char} (hsep : sep.isDigit = false) (n : Nat)
    (rest : List Char) : parseNatUpTo sep (natCharsFull n ++ sep :: rest) = some (n, rest) := by
  unfold parseNatUpTo
  rw [span_append_cons (natCharsFull_digits n) hsep]
  simp [natCharsFull_ne_nil n, parseDigits_natCharsFull]

theorem stripMinus_cons_minus (rest : List Char) : stripMinus ('-' :: rest) = (true, rest) := rfl

theorem stripMinus_of_digit {c : Char} (h : c.isDigit = true) (cs : List Char) :
    stripMinus (c :: cs) = (false, c :: cs) := by
  unfold stripMinus
  split
  · rename_i rest heq
    injection heq with h1 h2
    subst h1
    simp at h
  · rfl

theorem strOfInt_data_nonneg {k : Int} (h : 0 ≤ k) : (strOfInt k).data = natCharsFull k.toNat := by
  have : ¬ k < 0 := not_lt.mpr h
  have habs : k.natAbs = k.toNat := by omega
  simp [strOfInt, intChars, this, habs]

theorem strOfInt_data_neg {k : Int} (h : k < 0) : (strOfInt k).data = '-' :: natCharsFull k.natAbs := by
  simp [strOfInt, intChars, h]


theorem stripMinus_natCharsFull (n : Nat) (rest : List Char) :
    stripMinus (natCharsFull n ++ rest) = (false, natCharsFull n ++ rest) := by
  obtain ⟨c, cs', hc⟩ := List.exists_cons_of_ne_nil (natCharsFull_ne_nil n)
  have hdig : c.isDigit = true := natCharsFull_digits n c (by rw [hc]; simp)
  rw [hc, List.cons_append, stripMinus_of_digit hdig]

theorem parseTimedelta_roundtrip (t : PyTimedelta) (h : t.us % 1000000 = 0) :
    parseTimedeltaChars (timedelta_to_str t).data = some t := by
  rw [timedelta_to_str_eq]
  set D := t.us / 86400000000 with hD
  set H := t.us % 86400000000 / 3600000000 with hH
  set M := t.us % 3600000000 / 60000000 with hM
  set S := t.us % 60000000 / 1000000 with hS
  have hHnn : 0 ≤ H := Int.ediv_nonneg (Int.emod_nonneg _ (by norm_num)) (by norm_num)
  have hMnn : 0 ≤ M := Int.ediv_nonneg (Int.emod_nonneg _ (by norm_num)) (by norm_num)
  have hSnn : 0 ≤ S := Int.ediv_nonneg (Int.emod_nonneg _ (by norm_num)) (by norm_num)
  have hdata : (strOfInt D ++ "d" ++ strOfInt H ++ "h" ++ strOfInt M ++ "m" ++
        strOfInt S ++ "s").data
      = (strOfInt D).data ++ 'd' :: (natCharsFull H.toNat ++ 'h' ::
          (natCharsFull M.toNat ++ 'm' :: (natCharsFull S.toNat ++ 's' :: []))) := by
    simp [String.data_append, strOfInt_data_nonneg hHnn, strOfInt_data_nonneg hMnn,
      strOfInt_data_nonneg hSnn]
  rw [hdata]
  have harith : ∀ days : Int, days = D →
      ((days * 86400 + (H.toNat : Int) * 3600 + (M.toNat : Int) * 60 + (S.toNat : Int))
        * 1000000) = t.us := by
    intro days hdays
    rw [hdays, Int.toNat_of_nonneg hHnn, Int.toNat_of_nonneg hMnn, Int.toNat_of_nonneg hSnn]
    rw [hD, hH, hM, hS]
    omega
  rcases lt_or_ge D 0 with hDneg | hDnn
  · rw [strOfInt_data_neg hDneg, List.cons_append]
    unfold parseTimedeltaChars
    rw [stripMinus_cons_minus]
    dsimp only
    rw [parseNatUpTo_append (by rfl) D.natAbs]
    simp only [Option.bind_eq_bind, Option.some_bind]
    rw [parseNatUpTo_append (by rfl) H.toNat]
    simp only [Option.some_bind]
    rw [parseNatUpTo_append (by rfl) M.toNat]
    simp only [Option.some_bind]
    rw [parseNatUpTo_append (by rfl) S.toNat]
    simp only [Option.some_bind]
    have hval := harith (-(D.natAbs : Int)) (by omega)
    simp [hval]
    obtain ⟨us⟩ := t
    simp only [PyTimedelta.mk.injEq]
    simp only at hval
    have habs : |D| = -D := abs_of_neg hDneg
    omega
  · rw [strOfInt_data_nonneg hDnn]
    unfold parseTimedeltaChars
    rw [stripMinus_natCharsFull]
    dsimp only
    rw [parseNatUpTo_append (by rfl) D.toNat]
    simp only [Option.bind_eq_bind, Option.some_bind]
    rw [parseNatUpTo_append (by rfl) H.toNat]
    simp only [Option.some_bind]
    rw [parseNatUpTo_append (by rfl) M.toNat]
    simp only [Option.some_bind]
    rw [parseNatUpTo_append (by rfl) S.toNat]
    simp only [Option.some_bind]
    have hval := harith ((D.toNat : Int)) (by omega)
    simp [hval]
    obtain ⟨us⟩ := t
    simp only [PyTimedelta.mk.injEq]
    simp only at hval
    omega

theorem stripMinus_append_digits {xs : List Char} (hne : xs ≠ [])
    (hdig : ∀ c ∈ xs, c.isDigit = true) (rest : List Char) :
    stripMinus (xs ++ rest) = (false, xs ++ rest) := by
  obtain ⟨c, cs', hc⟩ := List.exists_cons_of_ne_nil hne
  have : c.isDigit = true := hdig c (by rw [hc]; simp)
  rw [hc, List.cons_append, stripMinus_of_digit this]

theorem parseNatChars_natCharsFull (n : Nat) : parseNatChars (natCharsFull n) = some n := by
  unfold parseNatChars
  rw [if_pos ⟨natCharsFull_ne_nil n, List.all_eq_true.mpr (natCharsFull_digits n)⟩]
  rw [parseDigits_natCharsFull]

theorem parseIntChars_cons_digit {c : Char} (h : c.isDigit = true) (cs : List Char) :
    parseIntChars (c :: cs) = (parseNatChars (c :: cs)).map (fun n => (n : Int)) := by
  unfold parseIntChars
  split
  · rename_i rest heq
    injection heq with h1 _
    subst h1
    exact absurd h (by decide)
  · rfl

theorem parseIntChars_intChars (n : Int) : parseIntChars (intChars n) = some n := by
  rcases lt_or_ge n 0 with hneg | hnn
  · rw [intChars, if_pos hneg]
    show (parseNatChars (natCharsFull n.natAbs)).map (fun k => -(k : Int)) = some n
    rw [parseNatChars_natCharsFull]
    exact congrArg some (show -(n.natAbs : Int) = n by omega)
  · rw [intChars, if_neg (not_lt.mpr hnn)]
    obtain ⟨c, cs', hc⟩ := List.exists_cons_of_ne_nil (natCharsFull_ne_nil n.natAbs)
    have hdig : c.isDigit = true := natCharsFull_digits n.natAbs c (by rw [hc]; simp)
    rw [hc, parseIntChars_cons_digit hdig, ← hc, parseNatChars_natCharsFull]
    exact congrArg some (show ((n.natAbs : Nat) : Int) = n by omega)

theorem to_int_roundtrip (n : Int) : to_int (strOfInt n).data = .ok (.vInt n) := by
  show to_int (intChars n) = .ok (.vInt n)
  unfold to_int
  rw [parseIntChars_intChars]

theorem to_bool_roundtrip (b : Bool) : to_bool (strOfBool b).data = .ok (.vBool b) := by
  cases b <;> rfl

theorem splitDot_append {ip fp : List Char} (hip : '.' ∉ ip) (hfp : '.' ∉ fp) :
    splitDot (ip ++ '.' :: fp) = some (ip, fp) := by
  induction ip with
  | nil =>
    simp [splitDot, hfp]
  | cons c ip ih =>
    have hc : ¬ c = '.' := fun hcc => hip (by simp [hcc])
    simp only [List.cons_append, splitDot, if_neg hc, List.append_eq]
    rw [ih (fun hx => hip (by simp [hx]))]
    rfl

theorem not_dot_of_digits {cs : List Char} (h : ∀ c ∈ cs, c.isDigit = true) : '.' ∉ cs :=
  fun hmem => absurd (h '.' hmem) (by decide)

theorem natCharsFull_getLast? (n : Nat) (hn : n ≠ 0) :
    (natCharsFull n).getLast? = some (digitChar (n % 10)) := by
  rw [natCharsFull, if_neg hn]
  cases n with
  | zero => omega
  | succ m =>
    rw [natChars, natCharsAux_eq m (m + 1) (Nat.succ_ne_zero m)]
    exact List.getLast?_concat _

theorem parseFloatChars_roundtrip (f : PyFloat) (h : f.wf) :
    parseFloatChars (floatChars f) = some f := by
  obtain ⟨m, e⟩ := f
  by_cases he : e = 0
  · subst he
    unfold floatChars
    dsimp only
    rw [if_pos rfl]
    have hdig := natCharsFull_digits m.natAbs
    have hdot : '.' ∉ natCharsFull m.natAbs := not_dot_of_digits hdig
    have hcond : natCharsFull m.natAbs ≠ [] ∧ (natCharsFull m.natAbs).all Char.isDigit = true ∧
        (['0'] : List Char) ≠ [] ∧ (['0'] : List Char).all Char.isDigit = true :=
      ⟨natCharsFull_ne_nil _, List.all_eq_true.mpr hdig, by simp, by decide⟩
    rcases lt_or_ge m 0 with hm | hm
    · rw [if_pos hm]
      rw [show (['-'] ++ natCharsFull m.natAbs ++ ['.', '0'] : List Char)
          = '-' :: (natCharsFull m.natAbs ++ '.' :: ['0']) by simp]
      unfold parseFloatChars
      rw [stripMinus_cons_minus]
      dsimp only
      rw [splitDot_append hdot (by decide)]
      dsimp only
      rw [if_pos hcond]
      refine congrArg some ?_
      simp [parseDigits_natCharsFull]
      have habs : |m| = (m.natAbs : Int) := Int.abs_eq_natAbs m
      omega
    · rw [if_neg (not_lt.mpr hm)]
      rw [show (([] : List Char) ++ natCharsFull m.natAbs ++ ['.', '0'] : List Char)
          = natCharsFull m.natAbs ++ '.' :: ['0'] by simp]
      unfold parseFloatChars
      rw [stripMinus_append_digits (natCharsFull_ne_nil _) hdig]
      dsimp only
      rw [splitDot_append hdot (by decide)]
      dsimp only
      rw [if_pos hcond]
      refine congrArg some ?_
      simp [parseDigits_natCharsFull]
      have habs : |m| = (m.natAbs : Int) := Int.abs_eq_natAbs m
      omega
  · have hnd : ¬ (10 : Int) ∣ m := h.resolve_left he
    have hm0 : m ≠ 0 := fun h0 => hnd (by rw [h0]; exact dvd_zero 10)
    have habs0 : m.natAbs ≠ 0 := by omega
    have habsmod : m.natAbs % 10 ≠ 0 := by
      intro hmod
      exact hnd (Int.natAbs_dvd_natAbs.mp
        (by simpa using Nat.dvd_of_mod_eq_zero hmod))
    set ds := natCharsFull m.natAbs with hds
    set padded := List.replicate (e + 1 - ds.length) '0' ++ ds with hpad
    have hdsne : ds ≠ [] := natCharsFull_ne_nil _
    have hdig : ∀ c ∈ padded, c.isDigit = true := by
      intro c hc
      rcases List.mem_append.mp hc with hrep | hmem
      · rcases List.eq_of_mem_replicate hrep with rfl; rfl
      · exact natCharsFull_digits _ c hmem
    have hplen : padded.length = (e + 1 - ds.length) + ds.length := by
      simp [hpad]
    have hLe : e + 1 ≤ padded.length := by omega
    set ip := padded.take (padded.length - e) with hipdef
    set fp := padded.drop (padded.length - e) with hfpdef
    have htd : ip ++ fp = padded := List.take_append_drop _ _
    have hfpl : fp.length = e := by
      rw [hfpdef, List.length_drop]
      omega
    have hipl : ip.length = padded.length - e := by
      rw [hipdef, List.length_take]
      omega
    have hipne : ip ≠ [] := by
      apply List.ne_nil_of_length_pos
      omega
    have hfpne : fp ≠ [] := by
      apply List.ne_nil_of_length_pos
      omega
    have hipdig : ∀ c ∈ ip, c.isDigit = true := fun c hc => hdig c (List.take_subset _ _ hc)
    have hfpdig : ∀ c ∈ fp, c.isDigit = true := fun c hc => hdig c (List.drop_subset _ _ hc)
    have hlast : padded.getLast? = some (digitChar (m.natAbs % 10)) := by
      rw [hpad, List.getLast?_append_of_ne_nil _ hdsne]
      exact natCharsFull_getLast? _ habs0
    have hfp0 : fp ≠ ['0'] := by
      intro hfpeq
      have h1 : padded.getLast? = some '0' := by
        rw [← htd, List.getLast?_append_of_ne_nil _ (by rw [hfpeq]; simp)]
        rw [hfpeq]
        rfl
      rw [hlast] at h1
      injection h1 with hh
      have h2 := charDigit_digitChar (Nat.mod_lt m.natAbs (by norm_num))
      rw [hh] at h2
      exact habsmod (by simpa [charDigit] using h2.symm)
    have hparse : parseDigits (ip ++ fp) = m.natAbs := by
      rw [htd, hpad, parseDigits_replicate_zero_append, hds, parseDigits_natCharsFull]
    have hcond : ip ≠ [] ∧ ip.all Char.isDigit = true ∧ fp ≠ [] ∧ fp.all Char.isDigit = true :=
      ⟨hipne, List.all_eq_true.mpr hipdig, hfpne, List.all_eq_true.mpr hfpdig⟩
    unfold floatChars
    dsimp only
    rw [if_neg he]
    rcases lt_or_ge m 0 with hm | hm
    · rw [if_pos hm]
      rw [show ((['-'] : List Char) ++ padded.take (padded.length - e) ++
          '.' :: padded.drop (padded.length - e)) = '-' :: (ip ++ '.' :: fp) by simp]
      unfold parseFloatChars
      rw [stripMinus_cons_minus]
      dsimp only
      rw [splitDot_append (not_dot_of_digits hipdig) (not_dot_of_digits hfpdig)]
      dsimp only
      rw [if_pos hcond]
      refine congrArg some ?_
      simp [hfp0, hparse, hfpl]
      have habs : |m| = (m.natAbs : Int) := Int.abs_eq_natAbs m
      omega
    · rw [if_neg (not_lt.mpr hm)]
      rw [show ((([] : List Char)) ++ padded.take (padded.length - e) ++
          '.' :: padded.drop (padded.length - e)) = ip ++ '.' :: fp by simp]
      unfold parseFloatChars
      rw [stripMinus_append_digits hipne hipdig]
      dsimp only
      rw [splitDot_append (not_dot_of_digits hipdig) (not_dot_of_digits hfpdig)]
      dsimp only
      rw [if_pos hcond]
      refine congrArg some ?_
      simp [hfp0, hparse, hfpl]
      have habs : |m| = (m.natAbs : Int) := Int.abs_eq_natAbs m
      omega

theorem takeExact {l1 l2 : List Char} {n : Nat} (h : l1.length = n) : (l1 ++ l2).take n = l1 :=
  List.take_left' h

theorem parseFixed_padChars {n v : Nat} (hn : 0 < n) (hv : v < 10 ^ n) (rest : List Char) :
    parseFixed n (padChars n v ++ rest) = some (v, rest) := by
  have hlen := padChars_length hv hn
  unfold parseFixed
  rw [List.take_left' hlen, List.drop_left' hlen]
  rw [if_pos ⟨hlen, List.all_eq_true.mpr (padChars_digits n v)⟩, parseDigits_padChars]

theorem expectChar_cons (c : Char) (rest : List Char) : expectChar c (c :: rest) = some rest := by
  simp [expectChar]

theorem parseFixed_padChars_nil {n v : Nat} (hn : 0 < n) (hv : v < 10 ^ n) :
    parseFixed n (padChars n v) = some (v, []) := by
  have := parseFixed_padChars hn hv ([] : List Char)
  rwa [List.append_nil] at this

set_option maxHeartbeats 2000000 in
theorem parseDatetime_roundtrip (d : PyDatetime) (h : d.wf) :
    parseDatetimeChars (isoChars d) = some d := by
  obtain ⟨y, mo, dd, hh, mi, s, us⟩ := d
  obtain ⟨h1, h2, h3, h4, h5, h6, h7, h8, h9, h10⟩ := h
  unfold isoChars
  dsimp only at *
  by_cases hus : us = 0
  · rw [if_pos hus]
    simp only [List.append_assoc, List.cons_append, List.append_nil]
    unfold parseDatetimeChars
    rw [parseFixed_padChars (by norm_num) (by omega)]
    simp only [Option.bind_eq_bind, Option.some_bind]
    rw [expectChar_cons]
    simp only [Option.some_bind]
    rw [parseFixed_padChars (by norm_num) (by omega)]
    simp only [Option.some_bind]
    rw [expectChar_cons]
    simp only [Option.some_bind]
    rw [parseFixed_padChars (by norm_num) (by omega)]
    simp only [Option.some_bind]
    rw [expectChar_cons]
    simp only [Option.some_bind]
    rw [parseFixed_padChars (by norm_num) (by omega)]
    simp only [Option.some_bind]
    rw [expectChar_cons]
    simp only [Option.some_bind]
    rw [parseFixed_padChars (by norm_num) (by omega)]
    simp only [Option.some_bind]
    rw [expectChar_cons]
    simp only [Option.some_bind]
    rw [parseFixed_padChars_nil (by norm_num) (by omega)]
    simp only [Option.some_bind]
    simp [hus]
  · rw [if_neg hus]
    simp only [List.append_assoc, List.cons_append]
    unfold parseDatetimeChars
    rw [parseFixed_padChars (by norm_num) (by omega)]
    simp only [Option.bind_eq_bind, Option.some_bind]
    rw [expectChar_cons]
    simp only [Option.some_bind]
    rw [parseFixed_padChars (by norm_num) (by omega)]
    simp only [Option.some_bind]
    rw [expectChar_cons]
    simp only [Option.some_bind]
    rw [parseFixed_padChars (by norm_num) (by omega)]
    simp only [Option.some_bind]
    rw [expectChar_cons]
    simp only [Option.some_bind]
    rw [parseFixed_padChars (by norm_num) (by omega)]
    simp only [Option.some_bind]
    rw [expectChar_cons]
    simp only [Option.some_bind]
    rw [parseFixed_padChars (by norm_num) (by omega)]
    simp only [Option.some_bind]
    rw [expectChar_cons]
    simp only [Option.some_bind]
    rw [parseFixed_padChars (by norm_num) (by omega)]
    simp only [Option.some_bind]
    rw [parseFixed_padChars_nil (by norm_num) (by omega)]
    simp

theorem lastValidSplitAux_skip (cs : List Char) :
    ∀ (n j : Nat), j ≤ n →
      (∀ i, j ≤ i → i < n →
        ¬ (cs.get? i = some ':' ∧ 1 ≤ i ∧ validTypeSuffix (cs.drop (i + 1)) = true)) →
      lastValidSplitAux cs n = lastValidSplitAux cs j := by
  intro n
  induction n with
  | zero =>
    intro j hj _
    interval_cases j
    rfl
  | succ n ih =>
    intro j hj hnone
    by_cases hjn : j = n + 1
    · rw [hjn]
    · have hj' : j ≤ n := by omega
      show (if cs.get? n = some ':' ∧ 1 ≤ n ∧ validTypeSuffix (cs.drop (n + 1)) = true then
          some (cs.take n, cs.drop (n + 1)) else lastValidSplitAux cs n) = _
      rw [if_neg (hnone n hj' (by omega))]
      exact ih j hj' (fun i h1 h2 => hnone i h1 (by omega))

theorem validTypeSuffix_false_of_colon {t : List Char} (h : ':' ∈ t) :
    validTypeSuffix t = false := by
  unfold validTypeSuffix
  have hne : t.isEmpty = false := by
    cases t with
    | nil => simp at h
    | cons a l => rfl
  rw [hne]
  simp only [Bool.false_or]
  by_contra hc
  rw [Bool.not_eq_false, List.contains_iff_exists_mem_beq] at hc
  obtain ⟨w, hw, hbeq⟩ := hc
  have hweq : String.mk t = w := eq_of_beq hbeq
  have : ':' ∈ w.data := by rw [← hweq]; exact h
  fin_cases hw <;> simp_all

theorem lastValidSplit_append {p t : List Char} (hp : p ≠ [])
    (hvt : validTypeSuffix t = true) (hnc : ':' ∉ t) :
    lastValidSplit (p ++ ':' :: t) = some (p, t) := by
  have hlen : (p ++ ':' :: t).length = p.length + 1 + t.length := by
    simp [List.length_append]
    omega
  have hdropt : (p ++ ':' :: t).drop (p.length + 1) = t := by
    rw [show p ++ ':' :: t = (p ++ [':']) ++ t by simp]
    exact List.drop_left' (by simp)
  have hupper : ∀ i, p.length + 1 ≤ i → i < (p ++ ':' :: t).length →
      ¬ ((p ++ ':' :: t).get? i = some ':' ∧ 1 ≤ i ∧
        validTypeSuffix ((p ++ ':' :: t).drop (i + 1)) = true) := by
    intro i hi1 hi2 ⟨hc, _, _⟩
    have hgt : (p ++ ':' :: t).get? i = t.get? (i - p.length - 1) := by
      rw [List.get?_append_right (by omega)]
      have : i - p.length = (i - p.length - 1) + 1 := by omega
      rw [this]
      rfl
    rw [hgt] at hc
    exact hnc (List.get?_mem hc)
  rw [lastValidSplit, lastValidSplitAux_skip _ _ (p.length + 1) (by omega) hupper]
  show (if (p ++ ':' :: t).get? p.length = some ':' ∧ 1 ≤ p.length ∧
      validTypeSuffix ((p ++ ':' :: t).drop (p.length + 1)) = true then
    some ((p ++ ':' :: t).take p.length, (p ++ ':' :: t).drop (p.length + 1))
    else lastValidSplitAux (p ++ ':' :: t) p.length) = some (p, t)
  have hget : (p ++ ':' :: t).get? p.length = some ':' := by
    rw [List.get?_append_right (Nat.le_refl _)]
    simp
  have hplen : 1 ≤ p.length := by
    cases p with
    | nil => exact absurd rfl hp
    | cons a l => simp
  rw [if_pos ⟨hget, hplen, by rw [hdropt]; exact hvt⟩]
  rw [List.take_left, hdropt]

theorem templateMatchChars_false_of_ne {cs : List Char}
    (h : ∀ rest, cs ≠ 'E' :: 'N' :: 'V' :: '[' :: rest) : templateMatchChars cs = false := by
  unfold templateMatchChars
  split
  · rename_i rest
    exact absurd rfl (h rest)
  · rfl

theorem templateMatch_false_of_head {s : List Char} (h : s.head? ≠ some 'E') :
    templateMatchChars s = false := by
  apply templateMatchChars_false_of_ne
  intro rest hne
  rw [hne] at h
  simp at h

theorem getLast_ne_colon_of_templateMatch {cs : List Char}
    (h : templateMatchChars cs = true) : cs.getLast? ≠ some ':' := by
  unfold templateMatchChars at h
  split at h
  · rename_i rest
    dsimp only at h
    rcases hspan : rest.span (fun c => c.isAlphanum || c = '_') with ⟨ident, rest2⟩
    rw [hspan] at h
    dsimp only at h
    rw [Bool.and_eq_true] at h
    obtain ⟨h1, h2⟩ := h
    have hrest : ident ++ rest2 = rest := by
      have h3 := hspan.symm.trans (List.span_eq_take_drop (fun c => c.isAlphanum || c = '_') rest)
      injection h3 with ha hb
      rw [ha, hb]
      exact List.takeWhile_append_dropWhile _ _
    have hcons : ∀ l : List Char, l ≠ [] →
        ('E' :: 'N' :: 'V' :: '[' :: (ident ++ l)).getLast? = l.getLast? := by
      intro l hl
      exact List.getLast?_append_of_ne_nil ('E' :: 'N' :: 'V' :: '[' :: ident) hl
    split at h2
    · rw [← hrest]
      rw [hcons [']'] (by simp)]
      decide
    · rename_i tw
      rw [← hrest]
      rw [hcons (']' :: ':' :: tw) (by simp)]
      rcases Bool.or_eq_true _ _ |>.mp h2 with h3 | h3
      rcases Bool.or_eq_true _ _ |>.mp h3 with h4 | h4
      rcases Bool.or_eq_true _ _ |>.mp h4 with h5 | h5
      · rw [show tw = "bool".data from by simpa using h5]
        decide
      · rw [show tw = "str".data from by simpa using h5]
        decide
      · rw [show tw = "int".data from by simpa using h4]
        decide
      · rw [show tw = "float".data from by simpa using h3]
        decide
    · exact absurd h2 (by simp)
  · exact absurd h (by simp)

theorem templateMatchChars_concat_colon (xs : List Char) :
    templateMatchChars (xs ++ [':']) = false := by
  by_contra hc
  rw [Bool.not_eq_false] at hc
  exact getLast_ne_colon_of_templateMatch hc (List.getLast?_concat xs)

theorem head?_append_of_ne_nil {xs : List Char} (hx : xs ≠ []) (rest : List Char) :
    (xs ++ rest).head? = xs.head? := by
  cases xs with
  | nil => exact absurd rfl hx
  | cons c l => rfl

theorem head_mem {c : Char} {l : List Char} (h : l.head? = some c) : c ∈ l := by
  cases l with
  | nil => simp at h
  | cons a l =>
    injection h with h1
    rw [h1]
    simp

theorem digit_ne_E {c : Char} (h : c.isDigit = true) : c ≠ 'E' :=
  fun he => absurd (he ▸ h) (by decide)

theorem natCharsFull_head_ne_E (n : Nat) : ∀ c, (natCharsFull n).head? = some c → c ≠ 'E' :=
  fun c hc => digit_ne_E (natCharsFull_digits n c (head_mem hc))

theorem intChars_head_ne_E (n : Int) : ∀ c, (intChars n).head? = some c → c ≠ 'E' := by
  intro c hc
  unfold intChars at hc
  by_cases hn : n < 0
  · rw [if_pos hn] at hc
    injection hc with h1
    rw [← h1]
    decide
  · rw [if_neg hn] at hc
    exact natCharsFull_head_ne_E _ c hc

theorem templateMatch_mk_false {l : List Char} (h : ∀ c, l.head? = some c → c ≠ 'E') :
    templateMatch (String.mk l) = false := by
  apply templateMatch_false_of_head
  intro he
  cases hl : l.head? with
  | none => rw [hl] at he; exact absurd he (by simp)
  | some c =>
    rw [hl] at he
    injection he with h1
    exact h c hl h1

/-- On a string of the shape `payload:tag` with a serializable `tag` and a
nonempty payload not starting like a template, `_pythonify` resolves the
greedy `TYPE_PATTERN` match at the final colon and dispatches on `tag`. -/
theorem pythonify_tagged_eq (p tag : List Char) (hp : p ≠ [])
    (hhead : ∀ c, p.head? = some c → c ≠ 'E') (hvt : validTypeSuffix tag = true)
    (hnc : ':' ∉ tag) (htagne : tag ≠ []) :
    pythonify (.vStr (String.mk (p ++ ':' :: tag)))
      = pythonifyDispatch (String.mk (p ++ ':' :: tag)) p (some tag) := by
  have hh : ∀ c, (p ++ ':' :: tag).head? = some c → c ≠ 'E' := by
    intro c hc
    rw [head?_append_of_ne_nil hp] at hc
    exact hhead c hc
  show (if templateMatch (String.mk (p ++ ':' :: tag)) then _ else _) = _
  rw [templateMatch_mk_false hh, if_neg (by simp)]
  have hdata : (String.mk (p ++ ':' :: tag)).data = p ++ ':' :: tag := rfl
  rw [hdata, lastValidSplit_append hp hvt hnc]
  dsimp only
  rw [if_neg htagne]

theorem floatChars_head_ne_E (f : PyFloat) : ∀ c, (floatChars f).head? = some c → c ≠ 'E' := by
  intro c hc
  unfold floatChars at hc
  dsimp only at hc
  by_cases he : f.exp = 0
  · rw [if_pos he] at hc
    by_cases hm : f.man < 0
    · rw [if_pos hm] at hc
      injection hc with h1
      rw [← h1]
      decide
    · rw [if_neg hm] at hc
      rw [show (([] : List Char) ++ natCharsFull f.man.natAbs ++ ['.', '0'])
          = natCharsFull f.man.natAbs ++ ['.', '0'] by simp] at hc
      rw [head?_append_of_ne_nil (natCharsFull_ne_nil _)] at hc
      exact natCharsFull_head_ne_E _ c hc
  · rw [if_neg he] at hc
    by_cases hm : f.man < 0
    · rw [if_pos hm] at hc
      injection hc with h1
      rw [← h1]
      decide
    · rw [if_neg hm] at hc
      set ds := natCharsFull f.man.natAbs with hds
      set padded := List.replicate (f.exp + 1 - ds.length) '0' ++ ds with hpad
      have hdsne : ds ≠ [] := natCharsFull_ne_nil _
      have hdsl : 1 ≤ ds.length := by
        cases hd : ds with
        | nil => exact absurd hd hdsne
        | cons a l => simp
      have hplen : padded.length = (f.exp + 1 - ds.length) + ds.length := by simp [hpad]
      have htne : padded.take (padded.length - f.exp) ≠ [] := by
        apply List.ne_nil_of_length_pos
        rw [List.length_take]
        omega
      rw [show (([] : List Char) ++ padded.take (padded.length - f.exp) ++
          '.' :: padded.drop (padded.length - f.exp))
          = padded.take (padded.length - f.exp) ++
            '.' :: padded.drop (padded.length - f.exp) by simp] at hc
      rw [head?_append_of_ne_nil htne] at hc
      have hmem : c ∈ padded := List.take_subset _ _ (head_mem hc)
      have hdig : c.isDigit = true := by
        rcases List.mem_append.mp hmem with hrep | hmem2
        · rcases List.eq_of_mem_replicate hrep with rfl; rfl
        · exact natCharsFull_digits _ c hmem2
      exact digit_ne_E hdig

theorem padChars_ne_nil (n v : Nat) : padChars n v ≠ [] := by
  unfold padChars
  intro hcon
  rcases List.append_eq_nil.mp hcon with ⟨_, h2⟩
  exact natCharsFull_ne_nil v h2

theorem isoChars_head_ne_E (d : PyDatetime) : ∀ c, (isoChars d).head? = some c → c ≠ 'E' := by
  intro c hc
  unfold isoChars at hc
  rw [show (padChars 4 d.year ++ '-' :: padChars 2 d.month ++ '-' :: padChars 2 d.day ++
        'T' :: padChars 2 d.hour ++ ':' :: padChars 2 d.minute ++ ':' :: padChars 2 d.second ++
        (if d.microsecond = 0 then [] else '.' :: padChars 6 d.microsecond))
      = padChars 4 d.year ++ ('-' :: padChars 2 d.month ++ '-' :: padChars 2 d.day ++
        'T' :: padChars 2 d.hour ++ ':' :: padChars 2 d.minute ++ ':' :: padChars 2 d.second ++
        (if d.microsecond = 0 then [] else '.' :: padChars 6 d.microsecond)) by
    simp [List.append_assoc]] at hc
  rw [head?_append_of_ne_nil (padChars_ne_nil 4 d.year)] at hc
  exact digit_ne_E (padChars_digits 4 d.year c (head_mem hc))

theorem timedeltaChars_head_ne_E (t : PyTimedelta) :
    ∀ c, (timedelta_to_str t).data.head? = some c → c ≠ 'E' := by
  intro c hc
  rw [timedelta_to_str_eq] at hc
  rw [show (strOfInt (t.us / 86400000000) ++ "d" ++
        strOfInt (t.us % 86400000000 / 3600000000) ++ "h" ++
        strOfInt (t.us % 3600000000 / 60000000) ++ "m" ++
        strOfInt (t.us % 60000000 / 1000000) ++ "s").data
      = intChars (t.us / 86400000000) ++ ("d" ++
        strOfInt (t.us % 86400000000 / 3600000000) ++ "h" ++
        strOfInt (t.us % 3600000000 / 60000000) ++ "m" ++
        strOfInt (t.us % 60000000 / 1000000) ++ "s").data by
    simp [String.data_append, strOfInt]] at hc
  have hne : intChars (t.us / 86400000000) ≠ [] := by
    unfold intChars
    by_cases hn : t.us / 86400000000 < 0
    · rw [if_pos hn]; simp
    · rw [if_neg hn]; exact natCharsFull_ne_nil _
  rw [head?_append_of_ne_nil hne] at hc
  exact intChars_head_ne_E _ c hc

theorem dispatch_bool_tag (o : String) (p : List Char) :
    pythonifyDispatch o p (some "bool".data) = to_bool p := rfl

theorem dispatch_int_tag (o : String) (p : List Char) :
    pythonifyDispatch o p (some "int".data) = to_int p := rfl

theorem dispatch_float_tag (o : String) (p : List Char) :
    pythonifyDispatch o p (some "float".data) = to_float p := rfl

theorem dispatch_datetime_tag (o : String) (p : List Char) :
    pythonifyDispatch o p (some "datetime".data) = to_datetime p := rfl

theorem dispatch_timedelta_tag (o : String) (p : List Char) :
    pythonifyDispatch o p (some "timedelta".data) = to_timedelta p := rfl

theorem dispatch_none_tag (o : String) (p : List Char) :
    pythonifyDispatch o p none
      = .error (.loadingError
          ("Error loading toml configuration at " ++ o ++ ". None type is not supported.")) := rfl

example (n : Int) : strOfInt n ++ ":int" = String.mk (intChars n ++ ':' :: "int".data) := rfl
example (b : Bool) : strOfBool b ++ ":bool"
    = String.mk ((strOfBool b).data ++ ':' :: "bool".data) := by cases b <;> rfl

theorem strOfBool_head_ne_E (b : Bool) : ∀ c, (strOfBool b).data.head? = some c → c ≠ 'E' := by
  cases b <;> (intro c hc; injection hc with h1; rw [← h1]; decide)

/-- The domain on which serialize-then-deserialize returns the original
value: all bools and ints, canonical floats, in-range datetimes, whole
second timedeltas, and strings that match the template pattern or do not
match the serializer's `"value:type"` pattern. -/
def roundtripCond : PyValue → Prop
  | .vNone => False
  | .vBool _ => True
  | .vInt _ => True
  | .vFloat f => f.wf
  | .vDatetime d => d.wf
  | .vTimedelta t => t.us % 1000000 = 0
  | .vStr s => templateMatch s = true ∨ lastValidSplit s.data = none

instance : ∀ v : PyValue, Decidable (roundtripCond v) := fun v => by
  cases v <;> (unfold roundtripCond; infer_instance)

set_option maxHeartbeats 2000000 in
theorem roundtrip_core (v : PyValue) (h : roundtripCond v) :
    pythonify (stringify v) = .ok v := by
  cases v with
  | vNone => exact h.elim
  | vBool b =>
    show pythonify (.vStr (strOfBool b ++ ":bool")) = .ok (.vBool b)
    rw [show strOfBool b ++ ":bool" = String.mk ((strOfBool b).data ++ ':' :: "bool".data) by
      cases b <;> rfl]
    rw [pythonify_tagged_eq ((strOfBool b).data) ("bool".data) (by cases b <;> decide)
      (strOfBool_head_ne_E b) (by decide) (by decide) (by decide)]
    rw [dispatch_bool_tag]
    exact to_bool_roundtrip b
  | vInt n =>
    show pythonify (.vStr (strOfInt n ++ ":int")) = .ok (.vInt n)
    rw [show strOfInt n ++ ":int" = String.mk (intChars n ++ ':' :: "int".data) from rfl]
    rw [pythonify_tagged_eq (intChars n) ("int".data)
      (by
        unfold intChars
        by_cases hn : n < 0
        · rw [if_pos hn]; simp
        · rw [if_neg hn]; exact natCharsFull_ne_nil _)
      (intChars_head_ne_E n) (by decide) (by decide) (by decide)]
    rw [dispatch_int_tag]
    exact to_int_roundtrip n
  | vFloat f =>
    show pythonify (.vStr (strOfFloat f ++ ":float")) = .ok (.vFloat f)
    rw [show strOfFloat f ++ ":float" = String.mk (floatChars f ++ ':' :: "float".data) from rfl]
    have hfne : floatChars f ≠ [] := by
      intro hnil
      have := floatChars_head_ne_E f
      rw [hnil] at this
      unfold floatChars at hnil
      dsimp only at hnil
      by_cases he : f.exp = 0
      · rw [if_pos he] at hnil
        rcases List.append_eq_nil.mp hnil with ⟨_, h2⟩
        simp at h2
      · rw [if_neg he] at hnil
        rcases List.append_eq_nil.mp hnil with ⟨h1, h2⟩
        simp at h2
    rw [pythonify_tagged_eq (floatChars f) ("float".data) hfne
      (floatChars_head_ne_E f) (by decide) (by decide) (by decide)]
    rw [dispatch_float_tag]
    unfold to_float
    rw [parseFloatChars_roundtrip f h]
  | vDatetime d =>
    show pythonify (.vStr (isoformat d ++ ":datetime")) = .ok (.vDatetime d)
    rw [show isoformat d ++ ":datetime" = String.mk (isoChars d ++ ':' :: "datetime".data)
      from rfl]
    have hine : isoChars d ≠ [] := by
      unfold isoChars
      intro hnil
      rcases List.append_eq_nil.mp hnil with ⟨h1, _⟩
      exact padChars_ne_nil 4 d.year (by
        rcases List.append_eq_nil.mp (List.append_eq_nil.mp
          (List.append_eq_nil.mp (List.append_eq_nil.mp (List.append_eq_nil.mp h1).1).1).1).1
          with ⟨hh, _⟩
        exact hh)
    rw [pythonify_tagged_eq (isoChars d) ("datetime".data) hine
      (isoChars_head_ne_E d) (by decide) (by decide) (by decide)]
    rw [dispatch_datetime_tag]
    unfold to_datetime
    rw [parseDatetime_roundtrip d h]
  | vTimedelta t =>
    show pythonify (.vStr (timedelta_to_str t ++ ":timedelta")) = .ok (.vTimedelta t)
    rw [show timedelta_to_str t ++ ":timedelta"
      = String.mk ((timedelta_to_str t).data ++ ':' :: "timedelta".data) from rfl]
    have htne : (timedelta_to_str t).data ≠ [] := by
      rw [timedelta_to_str_eq]
      intro hnil
      rw [show (strOfInt (t.us / 86400000000) ++ "d" ++
            strOfInt (t.us % 86400000000 / 3600000000) ++ "h" ++
            strOfInt (t.us % 3600000000 / 60000000) ++ "m" ++
            strOfInt (t.us % 60000000 / 1000000) ++ "s").data
          = intChars (t.us / 86400000000) ++ ("d" ++
            strOfInt (t.us % 86400000000 / 3600000000) ++ "h" ++
            strOfInt (t.us % 3600000000 / 60000000) ++ "m" ++
            strOfInt (t.us % 60000000 / 1000000) ++ "s").data by
        simp [String.data_append, strOfInt]] at hnil
      rcases List.append_eq_nil.mp hnil with ⟨h1, _⟩
      unfold intChars at h1
      by_cases hn : t.us / 86400000000 < 0
      · rw [if_pos hn] at h1; simp at h1
      · rw [if_neg hn] at h1; exact natCharsFull_ne_nil _ h1
    rw [pythonify_tagged_eq ((timedelta_to_str t).data) ("timedelta".data) htne
      (timedeltaChars_head_ne_E t) (by decide) (by decide) (by decide)]
    rw [dispatch_timedelta_tag]
    unfold to_timedelta
    rw [parseTimedelta_roundtrip t h]
  | vStr s =>
    show pythonify (.vStr s) = .ok (.vStr s)
    unfold pythonify
    rcases h with ht | hn
    · simp [ht]
    · by_cases ht2 : templateMatch s
      · simp [ht2]
      · simp [ht2, hn]

theorem data_ne_nil_of_ne_empty {p : String} (h : p ≠ "") : p.data ≠ [] := by
  intro hd
  apply h
  cases p with
  | mk l => rw [show l = ("" : String).data from hd]

/-- C10: `_stringify` returns every plain string unchanged, with no type
tag appended. -/
theorem stringify_str_id (s : String) : stringify (.vStr s) = .vStr s := rfl

set_option maxHeartbeats 1000000 in
/-- C3: the REST config check reports a `"port"` error exactly when the
section's port is not an integer between 1 and 65535 (a Python `bool`
counts as an integer, `True` comparing as 1 and `False` as 0). -/
theorem restCheck_port_error_iff (c : RestConfig) :
    hasError "port" (restCheck (some c)) = true ↔
      ¬ (pyIsInt c.port = true ∧ 1 ≤ pyIntVal c.port ∧ pyIntVal c.port ≤ 65535) := by
  unfold restCheck hasError check_port check_host check_https_settings
  dsimp only
  split_ifs <;> simp_all

set_option maxHeartbeats 1000000 in
/-- C5: the REST config check reports a `"host"` error exactly when the
section's host is not a non-empty string. -/
theorem restCheck_host_error_iff (c : RestConfig) :
    hasError "host" (restCheck (some c)) = true ↔
      ¬ (pyIsStr c.host = true ∧ pyTruthy c.host = true) := by
  unfold restCheck hasError check_port check_host check_https_settings
  dsimp only
  split_ifs <;> simp_all

set_option maxHeartbeats 1000000 in
/-- C4: with `use_https` set to `True`, the check reports an `ssl_cert`
error when `ssl_cert` is unset and an `ssl_key` error when `ssl_key` is
unset; with `use_https` set to `False` neither error is ever reported. -/
theorem restCheck_https_errors (c : RestConfig) :
    (c.use_https = .vBool true →
      (c.ssl_cert = .vNone → hasError "ssl_cert" (restCheck (some c)) = true) ∧
        (c.ssl_key = .vNone → hasError "ssl_key" (restCheck (some c)) = true)) ∧
      (c.use_https = .vBool false →
        hasError "ssl_cert" (restCheck (some c)) = false ∧
          hasError "ssl_key" (restCheck (some c)) = false) := by
  constructor
  · intro hhttps
    constructor
    · intro hcert
      unfold restCheck hasError check_port check_host check_https_settings
      dsimp only
      rw [hhttps, hcert]
      split_ifs <;> simp_all [pyTruthy]
    · intro hkey
      unfold restCheck hasError check_port check_host check_https_settings
      dsimp only
      rw [hhttps, hkey]
      split_ifs <;> simp_all [pyTruthy]
  · intro hhttps
    unfold restCheck hasError check_port check_host check_https_settings
    dsimp only
    rw [hhttps]
    split_ifs <;> simp_all [pyTruthy]

/-- Witness for C4: HTTPS on with both files unset yields both errors;
HTTPS off yields neither. -/
theorem restCheck_https_errors_witness :
    hasError "ssl_cert"
        (restCheck (some ⟨.vInt 8080, .vStr "h", .vBool true, .vNone, .vNone, []⟩)) = true ∧
      hasError "ssl_key"
          (restCheck (some ⟨.vInt 8080, .vStr "h", .vBool true, .vNone, .vNone, []⟩)) = true ∧
        hasError "ssl_cert"
            (restCheck (some ⟨.vInt 8080, .vStr "h", .vBool false, .vNone, .vNone, []⟩)) = false ∧
          hasError "ssl_key"
              (restCheck (some ⟨.vInt 8080, .vStr "h", .vBool false, .vNone, .vNone, []⟩))
            = false :=
  ⟨((restCheck_https_errors ⟨.vInt 8080, .vStr "h", .vBool true, .vNone, .vNone, []⟩).1
      rfl).1 rfl,
    ((restCheck_https_errors ⟨.vInt 8080, .vStr "h", .vBool true, .vNone, .vNone, []⟩).1
        rfl).2 rfl,
    ((restCheck_https_errors ⟨.vInt 8080, .vStr "h", .vBool false, .vNone, .vNone, []⟩).2
        rfl).1,
    ((restCheck_https_errors ⟨.vInt 8080, .vStr "h", .vBool false, .vNone, .vNone, []⟩).2
        rfl).2⟩

theorem dictUpdate_append_of_fresh :
    ∀ (kvs d : List (String × PyValue)),
      (∀ kv ∈ kvs, ∀ p ∈ d, p.1 ≠ kv.1) → (kvs.map Prod.fst).Nodup →
      dictUpdate d kvs = d ++ kvs := by
  intro kvs
  induction kvs with
  | nil => intro d _ _; simp [dictUpdate]
  | cons kv rest ih =>
    intro d hfresh hnodup
    have hany : d.any (fun p => p.1 = kv.1) = false := by
      rw [List.any_eq_false]
      intro p hp
      simpa using hfresh kv (by simp) p hp
    show dictUpdate (if d.any (fun p => p.1 = kv.1) = true then _ else d ++ [kv]) rest = _
    rw [hany]
    simp only [Bool.false_eq_true, if_false]
    rw [ih (d ++ [kv])
      (by
        intro kv2 hkv2 p hp
        rcases List.mem_append.mp hp with hpd | hpkv
        · exact hfresh kv2 (by simp [hkv2]) p hpd
        · have hpk : p = kv := List.mem_singleton.mp hpkv
          intro heq
          have h1 : kv.1 = kv2.1 := by rw [← hpk]; exact heq
          exact (List.nodup_cons.mp hnodup).1 (by
            rw [h1]
            exact List.mem_map_of_mem Prod.fst hkv2))
      (List.nodup_cons.mp hnodup).2]
    simp

theorem dictGet_guard_same (k : String) (v : PyValue) (cond : Prop) [Decidable cond]
    (rest : List (String × PyValue)) :
    dictGet k ((if cond then [(k, v)] else []) ++ rest)
      = if cond then some v else dictGet k rest := by
  split <;> simp [dictGet, List.find?]

theorem dictGet_guard_other {k k' : String} (h : k' ≠ k) (v : PyValue) (cond : Prop)
    [Decidable cond] (rest : List (String × PyValue)) :
    dictGet k ((if cond then [(k', v)] else []) ++ rest) = dictGet k rest := by
  split <;> simp [dictGet, List.find?, h]

theorem dictGet_none_of_disjoint {k : String} {props : List (String × PyValue)}
    (h : ∀ kv ∈ props, kv.1 ≠ k) : dictGet k props = none := by
  unfold dictGet
  rw [List.find?_eq_none.mpr (fun kv hkv => by simpa using h kv hkv)]
  rfl

theorem dictErase_guard_same (k : String) (v : PyValue) (cond : Prop) [Decidable cond]
    (rest : List (String × PyValue)) :
    dictErase k ((if cond then [(k, v)] else []) ++ rest) = dictErase k rest := by
  split <;> simp [dictErase, List.filter]

theorem dictErase_guard_other {k k' : String} (h : k' ≠ k) (v : PyValue) (cond : Prop)
    [Decidable cond] (rest : List (String × PyValue)) :
    dictErase k ((if cond then [(k', v)] else []) ++ rest)
      = (if cond then [(k', v)] else []) ++ dictErase k rest := by
  split <;> simp [dictErase, List.filter, h]

theorem dictErase_of_disjoint {k : String} {props : List (String × PyValue)}
    (h : ∀ kv ∈ props, kv.1 ≠ k) : dictErase k props = props := by
  unfold dictErase
  rw [List.filter_eq_self.mpr (fun kv hkv => by simpa using h kv hkv)]

set_option maxHeartbeats 1000000 in
/-- C9: for a `RestConfig` whose extra properties avoid the five reserved
keys (and have distinct keys, as a Python dict guarantees),
`_from_dict (_to_dict c)` restores all five fields and the properties
exactly; `_to_dict` omits exactly the fields whose value is `None`, and
`_from_dict` restores missing fields as `None`. -/
theorem rest_config_dict_roundtrip (c : RestConfig)
    (hdisj : ∀ kv ∈ c.properties,
      kv.1 ∉ (["port", "host", "use_https", "ssl_cert", "ssl_key"] : List String))
    (hnodup : (c.properties.map Prod.fst).Nodup) :
    RestConfig.from_dict (RestConfig.to_dict c) = c ∧
      (dictGet "port" (RestConfig.to_dict c) = none ↔ c.port = .vNone) ∧
        (dictGet "host" (RestConfig.to_dict c) = none ↔ c.host = .vNone) ∧
          (dictGet "use_https" (RestConfig.to_dict c) = none ↔ c.use_https = .vNone) ∧
            (dictGet "ssl_cert" (RestConfig.to_dict c) = none ↔ c.ssl_cert = .vNone) ∧
              (dictGet "ssl_key" (RestConfig.to_dict c) = none ↔ c.ssl_key = .vNone) := by
  obtain ⟨p0, h0, u0, s0, k0, pr⟩ := c
  dsimp only at hdisj hnodup ⊢
  have hkey : ∀ (k : String),
      k ∈ (["port", "host", "use_https", "ssl_cert", "ssl_key"] : List String) →
      ∀ kv ∈ pr, kv.1 ≠ k := by
    intro k hk kv hkv heq
    exact hdisj kv hkv (by rw [heq]; exact hk)
  have hfr : ∀ kv ∈ pr, ∀ p ∈ (([("port", p0), ("host", h0), ("use_https", u0),
      ("ssl_cert", s0), ("ssl_key", k0)]).filter (fun kv => kv.2 ≠ PyValue.vNone)),
      p.1 ≠ kv.1 := by
    intro kv hkv p hp
    have hp2 := List.mem_of_mem_filter hp
    simp only [List.mem_cons, List.not_mem_nil, or_false] at hp2
    have hnot := hdisj kv hkv
    rcases hp2 with rfl | rfl | rfl | rfl | rfl <;>
      (intro heq; exact hnot (by rw [← heq]; simp))
  have hto : RestConfig.to_dict ⟨p0, h0, u0, s0, k0, pr⟩
      = (if p0 ≠ PyValue.vNone then [("port", p0)] else [])
        ++ ((if h0 ≠ PyValue.vNone then [("host", h0)] else [])
        ++ ((if u0 ≠ PyValue.vNone then [("use_https", u0)] else [])
        ++ ((if s0 ≠ PyValue.vNone then [("ssl_cert", s0)] else [])
        ++ ((if k0 ≠ PyValue.vNone then [("ssl_key", k0)] else []) ++ pr)))) := by
    unfold RestConfig.to_dict
    dsimp only
    simp only [RestConfig.PORT_KEY, RestConfig.HOST_KEY, RestConfig.USE_HTTPS_KEY,
      RestConfig.SSL_CERT_KEY, RestConfig.SSL_KEY_KEY]
    rw [dictUpdate_append_of_fresh pr _ hfr hnodup]
    have hfilter : ∀ (a : String × PyValue) (l : List (String × PyValue)),
        List.filter (fun kv => kv.2 ≠ PyValue.vNone) (a :: l)
          = (if a.2 ≠ PyValue.vNone then [a] else [])
              ++ List.filter (fun kv => kv.2 ≠ PyValue.vNone) l := by
      intro a l
      by_cases hx : a.2 = PyValue.vNone <;> simp [List.filter_cons, hx]
    rw [hfilter, hfilter, hfilter, hfilter, hfilter]
    simp [List.append_assoc]
  have hgport : dictGet "port"
      ((if p0 ≠ PyValue.vNone then [("port", p0)] else [])
        ++ ((if h0 ≠ PyValue.vNone then [("host", h0)] else [])
        ++ ((if u0 ≠ PyValue.vNone then [("use_https", u0)] else [])
        ++ ((if s0 ≠ PyValue.vNone then [("ssl_cert", s0)] else [])
        ++ ((if k0 ≠ PyValue.vNone then [("ssl_key", k0)] else []) ++ pr)))))
      = if p0 ≠ PyValue.vNone then some p0 else none := by
    have hrest : dictGet "port"
        ((if h0 ≠ PyValue.vNone then [("host", h0)] else [])
          ++ ((if u0 ≠ PyValue.vNone then [("use_https", u0)] else [])
          ++ ((if s0 ≠ PyValue.vNone then [("ssl_cert", s0)] else [])
          ++ ((if k0 ≠ PyValue.vNone then [("ssl_key", k0)] else []) ++ pr)))) = none := by
      rw [dictGet_guard_other (by decide), dictGet_guard_other (by decide),
        dictGet_guard_other (by decide), dictGet_guard_other (by decide)]
      exact dictGet_none_of_disjoint (hkey "port" (by decide))
    rw [dictGet_guard_same, hrest]
  have he1 : dictErase "port"
      ((if p0 ≠ PyValue.vNone then [("port", p0)] else [])
        ++ ((if h0 ≠ PyValue.vNone then [("host", h0)] else [])
        ++ ((if u0 ≠ PyValue.vNone then [("use_https", u0)] else [])
        ++ ((if s0 ≠ PyValue.vNone then [("ssl_cert", s0)] else [])
        ++ ((if k0 ≠ PyValue.vNone then [("ssl_key", k0)] else []) ++ pr)))))
      = (if h0 ≠ PyValue.vNone then [("host", h0)] else [])
        ++ ((if u0 ≠ PyValue.vNone then [("use_https", u0)] else [])
        ++ ((if s0 ≠ PyValue.vNone then [("ssl_cert", s0)] else [])
        ++ ((if k0 ≠ PyValue.vNone then [("ssl_key", k0)] else []) ++ pr))) := by
    rw [dictErase_guard_same, dictErase_guard_other (by decide),
      dictErase_guard_other (by decide), dictErase_guard_other (by decide),
      dictErase_guard_other (by decide)]
    rw [dictErase_of_disjoint (hkey "port" (by decide))]
  have hghost : dictGet "host"
      ((if h0 ≠ PyValue.vNone then [("host", h0)] else [])
        ++ ((if u0 ≠ PyValue.vNone then [("use_https", u0)] else [])
        ++ ((if s0 ≠ PyValue.vNone then [("ssl_cert", s0)] else [])
        ++ ((if k0 ≠ PyValue.vNone then [("ssl_key", k0)] else []) ++ pr))))
      = if h0 ≠ PyValue.vNone then some h0 else none := by
    have hrest : dictGet "host"
        ((if u0 ≠ PyValue.vNone then [("use_https", u0)] else [])
          ++ ((if s0 ≠ PyValue.vNone then [("ssl_cert", s0)] else [])
          ++ ((if k0 ≠ PyValue.vNone then [("ssl_key", k0)] else []) ++ pr))) = none := by
      rw [dictGet_guard_other (by decide), dictGet_guard_other (by decide),
        dictGet_guard_other (by decide)]
      exact dictGet_none_of_disjoint (hkey "host" (by decide))
    rw [dictGet_guard_same, hrest]
  have he2 : dictErase "host"
      ((if h0 ≠ PyValue.vNone then [("host", h0)] else [])
        ++ ((if u0 ≠ PyValue.vNone then [("use_https", u0)] else [])
        ++ ((if s0 ≠ PyValue.vNone then [("ssl_cert", s0)] else [])
        ++ ((if k0 ≠ PyValue.vNone then [("ssl_key", k0)] else []) ++ pr))))
      = (if u0 ≠ PyValue.vNone then [("use_https", u0)] else [])
        ++ ((if s0 ≠ PyValue.vNone then [("ssl_cert", s0)] else [])
        ++ ((if k0 ≠ PyValue.vNone then [("ssl_key", k0)] else []) ++ pr)) := by
    rw [dictErase_guard_same, dictErase_guard_other (by decide),
      dictErase_guard_other (by decide), dictErase_guard_other (by decide)]
    rw [dictErase_of_disjoint (hkey "host" (by decide))]
  have hguse : dictGet "use_https"
      ((if u0 ≠ PyValue.vNone then [("use_https", u0)] else [])
        ++ ((if s0 ≠ PyValue.vNone then [("ssl_cert", s0)] else [])
        ++ ((if k0 ≠ PyValue.vNone then [("ssl_key", k0)] else []) ++ pr)))
      = if u0 ≠ PyValue.vNone then some u0 else none := by
    have hrest : dictGet "use_https"
        ((if s0 ≠ PyValue.vNone then [("ssl_cert", s0)] else [])
          ++ ((if k0 ≠ PyValue.vNone then [("ssl_key", k0)] else []) ++ pr)) = none := by
      rw [dictGet_guard_other (by decide), dictGet_guard_other (by decide)]
      exact dictGet_none_of_disjoint (hkey "use_https" (by decide))
    rw [dictGet_guard_same, hrest]
  have he3 : dictErase "use_https"
      ((if u0 ≠ PyValue.vNone then [("use_https", u0)] else [])
        ++ ((if s0 ≠ PyValue.vNone then [("ssl_cert", s0)] else [])
        ++ ((if k0 ≠ PyValue.vNone then [("ssl_key", k0)] else []) ++ pr)))
      = (if s0 ≠ PyValue.vNone then [("ssl_cert", s0)] else [])
        ++ ((if k0 ≠ PyValue.vNone then [("ssl_key", k0)] else []) ++ pr) := by
    rw [dictErase_guard_same, dictErase_guard_other (by decide),
      dictErase_guard_other (by decide)]
    rw [dictErase_of_disjoint (hkey "use_https" (by decide))]
  have hgcert : dictGet "ssl_cert"
      ((if s0 ≠ PyValue.vNone then [("ssl_cert", s0)] else [])
        ++ ((if k0 ≠ PyValue.vNone then [("ssl_key", k0)] else []) ++ pr))
      = if s0 ≠ PyValue.vNone then some s0 else none := by
    have hrest : dictGet "ssl_cert"
        ((if k0 ≠ PyValue.vNone then [("ssl_key", k0)] else []) ++ pr) = none := by
      rw [dictGet_guard_other (by decide)]
      exact dictGet_none_of_disjoint (hkey "ssl_cert" (by decide))
    rw [dictGet_guard_same, hrest]
  have he4 : dictErase "ssl_cert"
      ((if s0 ≠ PyValue.vNone then [("ssl_cert", s0)] else [])
        ++ ((if k0 ≠ PyValue.vNone then [("ssl_key", k0)] else []) ++ pr))
      = (if k0 ≠ PyValue.vNone then [("ssl_key", k0)] else []) ++ pr := by
    rw [dictErase_guard_same, dictErase_guard_other (by decide)]
    rw [dictErase_of_disjoint (hkey "ssl_cert" (by decide))]
  have hgkey : dictGet "ssl_key"
      ((if k0 ≠ PyValue.vNone then [("ssl_key", k0)] else []) ++ pr)
      = if k0 ≠ PyValue.vNone then some k0 else none := by
    have hrest : dictGet "ssl_key" pr = none :=
      dictGet_none_of_disjoint (hkey "ssl_key" (by decide))
    rw [dictGet_guard_same, hrest]
  have he5 : dictErase "ssl_key"
      ((if k0 ≠ PyValue.vNone then [("ssl_key", k0)] else []) ++ pr) = pr := by
    rw [dictErase_guard_same]
    rw [dictErase_of_disjoint (hkey "ssl_key" (by decide))]
  refine ⟨?_, ?_, ?_, ?_, ?_, ?_⟩
  · rw [hto]
    unfold RestConfig.from_dict
    dsimp only
    simp only [RestConfig.PORT_KEY, RestConfig.HOST_KEY, RestConfig.USE_HTTPS_KEY,
      RestConfig.SSL_CERT_KEY, RestConfig.SSL_KEY_KEY]
    rw [he1, he2, he3, he4, hgport, hghost, hguse, hgcert, hgkey, he5]
    simp only [RestConfig.mk.injEq]
    refine ⟨?_, ?_, ?_, ?_, ?_, trivial⟩
    · by_cases hc : p0 = PyValue.vNone <;> simp [hc]
    · by_cases hc : h0 = PyValue.vNone <;> simp [hc]
    · by_cases hc : u0 = PyValue.vNone <;> simp [hc]
    · by_cases hc : s0 = PyValue.vNone <;> simp [hc]
    · by_cases hc : k0 = PyValue.vNone <;> simp [hc]
  · rw [hto, hgport]
    by_cases hc : p0 = PyValue.vNone <;> simp [hc]
  · rw [hto]
    rw [dictGet_guard_other (by decide), hghost]
    by_cases hc : h0 = PyValue.vNone <;> simp [hc]
  · rw [hto]
    rw [dictGet_guard_other (by decide), dictGet_guard_other (by decide), hguse]
    by_cases hc : u0 = PyValue.vNone <;> simp [hc]
  · rw [hto]
    rw [dictGet_guard_other (by decide), dictGet_guard_other (by decide),
      dictGet_guard_other (by decide), hgcert]
    by_cases hc : s0 = PyValue.vNone <;> simp [hc]
  · rw [hto]
    rw [dictGet_guard_other (by decide), dictGet_guard_other (by decide),
      dictGet_guard_other (by decide), dictGet_guard_other (by decide), hgkey]
    by_cases hc : k0 = PyValue.vNone <;> simp [hc]

/-- Witness for C9: a config with `host` and `ssl_cert` unset and one extra
property round-trips exactly. -/
theorem rest_config_dict_roundtrip_witness :
    RestConfig.from_dict (RestConfig.to_dict
        ⟨.vInt 5000, .vNone, .vBool false, .vNone, .vStr "k", [("extra", .vInt 7)]⟩)
      = ⟨.vInt 5000, .vNone, .vBool false, .vNone, .vStr "k", [("extra", .vInt 7)]⟩ :=
  (rest_config_dict_roundtrip
    ⟨.vInt 5000, .vNone, .vBool false, .vNone, .vStr "k", [("extra", .vInt 7)]⟩
    (by decide) (by decide)).1

/-- C7: when no builder is registered for the element type, the markdown
factory returns exactly the unknown-element placeholder with the type
interpolated, whatever the property string holds. -/
theorem create_element_unknown (builders : List (String × (List (String × String) → String)))
    (element_type all_properties : String)
    (h : call_builder builders element_type (parseProperties all_properties) = none) :
    create_element builders element_type all_properties
      = "<|UNKNOWN ELEMENT TYPE '" ++ element_type ++ "'|>" := by
  unfold create_element
  dsimp only
  rw [h]

/-- Witness for C7: an empty registry and the element type `chart`. -/
theorem create_element_unknown_witness :
    create_element [] "chart" "a=b" = "<|UNKNOWN ELEMENT TYPE '" ++ "chart" ++ "'|>" :=
  create_element_unknown [] "chart" "a=b" rfl

/-- C6: for a slice payload with `0 ≤ start ≤ end < rowcount`, `get_data`
reports the dataframe's full row count, returns exactly the rows `start`
through `end` inclusive (`end - start + 1` of them), and `end = -1` selects
through the last row. -/
theorem get_data_slice {α : Type} (df : List α) (s e : Int)
    (hs : 0 ≤ s) (hse : s ≤ e) (he : e < (df.length : Int)) :
    (get_data df s e).rowcount = df.length ∧
      ((get_data df s e).data).length = (e - s + 1).toNat ∧
        (∀ i : Nat, i < (e - s + 1).toNat →
          ((get_data df s e).data).get? i = df.get? (s.toNat + i)) ∧
          get_data df s (-1) = get_data df s ((df.length : Int) - 1) := by
  have hne : e ≠ -1 := by omega
  refine ⟨rfl, ?_, ?_, ?_⟩
  · show ((df.drop s.toNat).take ((if e = -1 then (df.length : Int) - 1 else e) - s + 1).toNat).length
      = (e - s + 1).toNat
    rw [if_neg hne, List.length_take, List.length_drop]
    omega
  · intro i hi
    show ((df.drop s.toNat).take ((if e = -1 then (df.length : Int) - 1 else e) - s + 1).toNat).get? i
      = df.get? (s.toNat + i)
    rw [if_neg hne]
    rw [List.get?_take (by omega)]
    exact List.get?_drop df s.toNat i
  · by_cases hlen : (df.length : Int) - 1 = -1 <;> simp [get_data, hlen]

/-- Witness for C6: rows 1 through 2 of a three-row dataframe. -/
theorem get_data_slice_witness :
    (get_data ([10, 20, 30] : List Int) 1 2).rowcount = 3 ∧
      ((get_data ([10, 20, 30] : List Int) 1 2).data).length = 2 ∧
        ((get_data ([10, 20, 30] : List Int) 1 2).data).get? 0 = some 20 := by
  have h := get_data_slice ([10, 20, 30] : List Int) 1 2 (by decide) (by decide) (by decide)
  refine ⟨h.1, by simpa using h.2.1, ?_⟩
  have h3 := h.2.2.1 0 (by decide)
  simpa using h3
